import Mathlib

/-!
# KuiperInfer: the `Tensor<float>` class and the SiLU layer

A shallow embedding of `source/data/tensor.cpp` and `source/layer/details/silu.cpp`.

* The element type is a parameter `α` (the source fixes `float`); the laws that
  need arithmetic take it as a commutative ring, the SiLU layer as a division ring with
  the scalar exponential as a parameter.
* `arma::fcube` / `arma::fmat` are modelled by their dimensions and their linear
  memory, addressed column-major exactly as Armadillo does: element
  `(row, col, slice)` of a cube lives at offset
  `slice * (n_rows * n_cols) + col * n_rows + row`.
* A failed glog `CHECK` aborts the process: every operation returns an `Option`
  and `none` stands for the abort.  Operations that mutate `*this` return the new
  tensor.
* Dimensions and element counts (`uword`) are natural numbers, and the accessors
  return them as they are: that is what their `uint32_t` return type gives for every
  buffer of fewer than `2^32` elements.  The `uint32_t` locals of `ReRawshape`, which
  multiply caller-supplied shape entries, are reduced modulo `2^32`, and the statements
  about the dimensions that `Padding` makes from caller-supplied pads are restricted to
  dimensions below `2^32`.
* `arma::fcube(r, c, s)` and `arma::fmat(r, c)` are zero-filled, as current Armadillo
  does; no statement below depends on the content of a fresh buffer.
-/

namespace kuiper_infer

/-- Value of a natural number after conversion to `uint32_t`. -/
def u32 (n : Nat) : Nat := n % 4294967296

/-- A glog `CHECK(cond)`: continue when the condition holds, abort otherwise. -/
def CHECK (cond : Bool) : Option Unit := if cond then some () else none

/-- Model of `arma::Mat<eT>`: dimensions and column-major memory. -/
@[ext]
structure Mat (α : Type) where
  n_rows : Nat
  n_cols : Nat
  mem : Nat → α

/-- Model of `arma::Cube<eT>`: dimensions and linear memory (slice after slice, each
slice column-major). -/
@[ext]
structure Cube (α : Type) where
  n_rows : Nat
  n_cols : Nat
  n_slices : Nat
  mem : Nat → α

namespace Mat

variable {α : Type}

/-- `Mat::n_elem`. -/
def n_elem (m : Mat α) : Nat := m.n_rows * m.n_cols

/-- `Mat::empty()`. -/
def empty (m : Mat α) : Bool := m.n_elem == 0

/-- Constructor `Mat(n_rows, n_cols)` (zero-filled). -/
def zeros [Zero α] (n_rows n_cols : Nat) : Mat α := ⟨n_rows, n_cols, fun _ => 0⟩

/-- Constructor `Mat(const eT* aux_mem, n_rows, n_cols)`: copies `n_rows * n_cols`
values starting at position `start` of the vector `values`. -/
def of_ptr [Zero α] (values : List α) (start n_rows n_cols : Nat) : Mat α :=
  ⟨n_rows, n_cols, fun j => values.getD (start + j) 0⟩

/-- Element access `Mat::at(row, col)` (column-major). -/
def at_ (m : Mat α) (row col : Nat) : α := m.mem (col * m.n_rows + row)

/-- `Mat::fill(value)`. -/
def fill (m : Mat α) (value : α) : Mat α := { m with mem := fun _ => value }

/-- `Mat::t()`: the transpose, an `n_cols x n_rows` matrix. -/
def t (m : Mat α) : Mat α :=
  ⟨m.n_cols, m.n_rows, fun j => m.at_ (j / m.n_cols) (j % m.n_cols)⟩

/-- Assignment `m.submat(r1, c1, r2, c2) = src`: the rectangle with corners
`(r1, c1)` and `(r2, c2)` (inclusive) receives `src`. -/
def set_submat (m : Mat α) (r1 c1 r2 c2 : Nat) (src : Mat α) : Mat α :=
  { m with mem := fun j =>
      let r := j % m.n_rows
      let c := j / m.n_rows
      if r1 ≤ r ∧ r ≤ r2 ∧ c1 ≤ c ∧ c ≤ c2 then src.at_ (r - r1) (c - c1) else m.mem j }

end Mat

namespace Cube

variable {α : Type}

/-- `Cube::n_elem`, also returned by `Cube::size()`. -/
def n_elem (c : Cube α) : Nat := c.n_rows * c.n_cols * c.n_slices

/-- `Cube::size()`. -/
def size (c : Cube α) : Nat := c.n_elem

/-- `Cube::empty()`. -/
def empty (c : Cube α) : Bool := c.n_elem == 0

/-- Default constructor `Cube()`: no elements. -/
def nil [Zero α] : Cube α := ⟨0, 0, 0, fun _ => 0⟩

/-- Constructor `Cube(n_rows, n_cols, n_slices)` (zero-filled). -/
def zeros [Zero α] (n_rows n_cols n_slices : Nat) : Cube α :=
  ⟨n_rows, n_cols, n_slices, fun _ => 0⟩

/-- Linear element access `Cube::at(i)`. -/
def at1 (c : Cube α) (i : Nat) : α := c.mem i

/-- Offset of element `(row, col, slice)` in the linear memory. -/
def offset (c : Cube α) (row col slice : Nat) : Nat :=
  slice * (c.n_rows * c.n_cols) + col * c.n_rows + row

/-- Element access `Cube::at(row, col, slice)`. -/
def at3 (c : Cube α) (row col slice : Nat) : α := c.mem (c.offset row col slice)

/-- Assignment `c.at(row, col, slice) = value`. -/
def set3 (c : Cube α) (row col slice : Nat) (value : α) : Cube α :=
  { c with mem := fun j => if j = c.offset row col slice then value else c.mem j }

/-- `Cube::slice(i)`: the matrix of slice `i`. -/
def slice (c : Cube α) (i : Nat) : Mat α :=
  ⟨c.n_rows, c.n_cols, fun j => c.mem (i * (c.n_rows * c.n_cols) + j)⟩

/-- Assignment `c.slice(i) = m` for a matrix of the slice's dimensions: the
`n_rows * n_cols` elements of the slice are overwritten. -/
def set_slice (c : Cube α) (i : Nat) (m : Mat α) : Cube α :=
  { c with mem := fun j =>
      if i * (c.n_rows * c.n_cols) ≤ j ∧ j < i * (c.n_rows * c.n_cols) + c.n_rows * c.n_cols
      then m.mem (j - i * (c.n_rows * c.n_cols)) else c.mem j }

/-- `Cube::fill(value)`. -/
def fill (c : Cube α) (value : α) : Cube α := { c with mem := fun _ => value }

/-- `Cube::transform(f)`. -/
def transform (c : Cube α) (f : α → α) : Cube α := { c with mem := fun j => f (c.mem j) }

/-- `Cube::reshape(n_rows, n_cols, n_slices)`: the elements are kept in their linear
order; when the new cube is larger the remaining elements are zero. -/
def reshape [Zero α] (c : Cube α) (n_rows n_cols n_slices : Nat) : Cube α :=
  ⟨n_rows, n_cols, n_slices, fun j => if j < c.n_elem then c.mem j else 0⟩

/-- The cube `L` after `m` consecutive elements `h 0, ..., h (m - 1)` have been stored
from offset `i` on (used to state what the loops over a cube compute). -/
def write (L : Cube α) (i m : Nat) (h : Nat → α) : Cube α :=
  { L with mem := fun x => if i ≤ x ∧ x < i + m then h (x - i) else L.mem x }

/-- Elementwise sum `a + b` of two cubes of equal dimensions. -/
def add [Add α] (a b : Cube α) : Cube α :=
  ⟨a.n_rows, a.n_cols, a.n_slices, fun j => a.mem j + b.mem j⟩

/-- Elementwise (Schur) product `a % b` of two cubes of equal dimensions. -/
def schur [Mul α] (a b : Cube α) : Cube α :=
  ⟨a.n_rows, a.n_cols, a.n_slices, fun j => a.mem j * b.mem j⟩

end Cube

/-- Modelled from the spec: the class `Tensor<float>` is declared in `data/tensor.hpp`,
which is not among the sources; its data members are the two that `tensor.cpp` uses, the
cube `data_` and the logical shape `raw_shapes_`. -/
structure Tensor (α : Type) where
  data_ : Cube α
  raw_shapes_ : List Nat

namespace Tensor

variable {α : Type}

/-- Constructor `Tensor(uint32_t channels, uint32_t rows, uint32_t cols)`. -/
def new [Zero α] (channels rows cols : Nat) : Tensor α :=
  { data_ := Cube.zeros rows cols channels
    raw_shapes_ :=
      if channels = 1 ∧ rows = 1 then [cols]
      else if channels = 1 then [rows, cols]
      else [channels, rows, cols] }

/-- `Tensor::rows()`. -/
def rows (t : Tensor α) : Option Nat := do
  CHECK (!t.data_.empty)
  pure t.data_.n_rows

/-- `Tensor::cols()`. -/
def cols (t : Tensor α) : Option Nat := do
  CHECK (!t.data_.empty)
  pure t.data_.n_cols

/-- `Tensor::channels()`. -/
def channels (t : Tensor α) : Option Nat := do
  CHECK (!t.data_.empty)
  pure t.data_.n_slices

/-- `Tensor::size()`. -/
def size (t : Tensor α) : Option Nat := do
  CHECK (!t.data_.empty)
  pure t.data_.size

/-- `Tensor::set_data(data)`. -/
def set_data (t : Tensor α) (data : Cube α) : Option (Tensor α) := do
  CHECK (data.n_rows == t.data_.n_rows)
  CHECK (data.n_cols == t.data_.n_cols)
  CHECK (data.n_slices == t.data_.n_slices)
  pure { t with data_ := data }

/-- `Tensor::empty()`. -/
def empty (t : Tensor α) : Bool := t.data_.empty

/-- `Tensor::index(offset)`. -/
def index (t : Tensor α) (offset : Nat) : Option α := do
  CHECK (offset < t.data_.size)
  pure (t.data_.at1 offset)

/-- `Tensor::shapes()`. -/
def shapes (t : Tensor α) : Option (List Nat) := do
  CHECK (!t.data_.empty)
  pure [← t.channels, ← t.rows, ← t.cols]

/-- `Tensor::data()`. -/
def data (t : Tensor α) : Cube α := t.data_

/-- `Tensor::at(channel)`. -/
def at_channel (t : Tensor α) (channel : Nat) : Option (Mat α) := do
  CHECK (channel < (← t.channels))
  pure (t.data_.slice channel)

/-- `Tensor::at(channel, row, col)`. -/
def at_ (t : Tensor α) (channel row col : Nat) : Option α := do
  CHECK (row < (← t.rows))
  CHECK (col < (← t.cols))
  CHECK (channel < (← t.channels))
  pure (t.data_.at3 row col channel)

/-- `Tensor::raw_shapes()`. -/
def raw_shapes (t : Tensor α) : List Nat := t.raw_shapes_

/-- `Tensor::Padding(pads, padding_value)`.  The padded buffer has
`rows + pads[0] + pads[1]` rows and `cols + pads[2] + pads[3]` columns as `uword` values;
`rows()`, `cols()` and the `shapes()` stored into `raw_shapes_` are `uint32_t` in the
source and report these values exactly only while they are below `2^32`, which is the
range the statements about the padded dimensions are made for. -/
def Padding [Zero α] (t : Tensor α) (pads : List Nat) (padding_value : α) :
    Option (Tensor α) := do
  CHECK (!t.data_.empty)
  CHECK (pads.length == 4)
  let pad_rows1 := pads.getD 0 0
  let pad_rows2 := pads.getD 1 0
  let pad_cols1 := pads.getD 2 0
  let pad_cols2 := pads.getD 3 0
  let channels ← t.channels
  CHECK (decide (channels > 0))
  let padded_cube ← (List.range channels).foldlM (fun (padded_cube : Cube α) i => do
      let sub_mat := t.data_.slice i
      CHECK (!sub_mat.empty)
      let padded_mat : Mat α :=
        Mat.zeros (sub_mat.n_rows + pad_rows1 + pad_rows2) (sub_mat.n_cols + pad_cols1 + pad_cols2)
      let padded_mat := padded_mat.fill padding_value
      let padded_mat := padded_mat.set_submat pad_rows1 pad_cols1
        (pad_rows1 + sub_mat.n_rows - 1) (pad_cols1 + sub_mat.n_cols - 1) sub_mat
      let padded_cube :=
        if padded_cube.empty then Cube.zeros padded_mat.n_rows padded_mat.n_cols channels
        else padded_cube
      pure (padded_cube.set_slice i padded_mat)) Cube.nil
  CHECK (!padded_cube.empty)
  let t1 : Tensor α := { t with data_ := padded_cube }
  pure { t1 with raw_shapes_ := ← t1.shapes }

/-- `Tensor::Fill(float value)`. -/
def Fill_value (t : Tensor α) (value : α) : Option (Tensor α) := do
  CHECK (!t.data_.empty)
  pure { t with data_ := t.data_.fill value }

/-- `Tensor::Fill(const std::vector<float>& values)`. -/
def Fill_values [Zero α] (t : Tensor α) (values : List α) : Option (Tensor α) := do
  CHECK (!t.data_.empty)
  let total_elems := t.data_.size
  CHECK (values.length == total_elems)
  let rows ← t.rows
  let cols ← t.cols
  let planes := rows * cols
  let channels := t.data_.n_slices
  let data := (List.range channels).foldl (fun (data : Cube α) i =>
      let channel_data_t : Mat α := Mat.of_ptr values (i * planes) cols rows
      data.set_slice i channel_data_t.t) t.data_
  pure { t with data_ := data }

/-- `Tensor::Flatten()`. -/
def Flatten [Zero α] (t : Tensor α) : Option (Tensor α) := do
  CHECK (!t.data_.empty)
  let size := t.data_.size
  let linear_cube : Cube α := Cube.zeros size 1 1
  let channel ← t.channels
  let rows ← t.rows
  let cols ← t.cols
  let index := 0
  let (linear_cube, index) :=
    (List.range channel).foldl (fun (st : Cube α × Nat) c =>
      let matrix := t.data_.slice c
      (List.range rows).foldl (fun (st : Cube α × Nat) r =>
        (List.range cols).foldl (fun (st : Cube α × Nat) c_ =>
          (st.1.set3 st.2 0 0 (matrix.at_ r c_), st.2 + 1)) st) st) (linear_cube, index)
  CHECK (index == size)
  pure { data_ := linear_cube, raw_shapes_ := [size] }

/-- `Tensor::Clone()`: a copy of the tensor (copy constructor). -/
def Clone (t : Tensor α) : Tensor α := { data_ := t.data_, raw_shapes_ := t.raw_shapes_ }

/-- `Tensor::Ones()`. -/
def Ones [One α] (t : Tensor α) : Option (Tensor α) := do
  CHECK (!t.data_.empty)
  pure { t with data_ := t.data_.fill 1 }

/-- `Tensor::ElementAdd(tensor1, tensor2)`. -/
def ElementAdd [Zero α] [Add α] (tensor1 tensor2 : Tensor α) : Option (Tensor α) := do
  CHECK (!tensor1.empty && !tensor2.empty)
  CHECK ((← tensor1.shapes) == (← tensor2.shapes))
  let output_tensor : Tensor α :=
    Tensor.new (← tensor1.channels) (← tensor1.rows) (← tensor1.cols)
  pure { output_tensor with data_ := tensor1.data_.add tensor2.data_ }

/-- `Tensor::ElementMultiply(tensor1, tensor2)`. -/
def ElementMultiply [Zero α] [Mul α] (tensor1 tensor2 : Tensor α) : Option (Tensor α) := do
  CHECK (!tensor1.empty && !tensor2.empty)
  CHECK ((← tensor1.shapes) == (← tensor2.shapes))
  let output_tensor : Tensor α :=
    Tensor.new (← tensor1.channels) (← tensor1.rows) (← tensor1.cols)
  pure { output_tensor with data_ := tensor1.data_.schur tensor2.data_ }

/-- `Tensor::Transform(filter)`. -/
def Transform (t : Tensor α) (filter : α → α) : Option (Tensor α) := do
  CHECK (!t.data_.empty)
  pure { t with data_ := t.data_.transform filter }

/-- `Tensor::ReRawshape(shapes)`.  The locals `origin_size` and `current_size` are
`uint32_t`: the running product wraps modulo `2^32`. -/
def ReRawshape [Zero α] (t : Tensor α) (shapes : List Nat) : Option (Tensor α) := do
  CHECK (!shapes.isEmpty)
  let origin_size := u32 (← t.size)
  let current_size := shapes.foldl (fun current_size s => u32 (current_size * s)) 1
  CHECK (shapes.length ≤ 3)
  CHECK (current_size == origin_size)
  let data :=
    if shapes.length == 3 then
      t.data_.reshape (shapes.getD 1 0) (shapes.getD 2 0) (shapes.getD 0 0)
    else if shapes.length == 2 then
      t.data_.reshape (shapes.getD 0 0) (shapes.getD 1 0) 1
    else
      t.data_.reshape (shapes.getD 0 0) 1 1
  pure { data_ := data, raw_shapes_ := shapes }

end Tensor

/-! ### The SiLU layer (`source/layer/details/silu.cpp`)

A `std::shared_ptr<Tensor<float>>` is an `Option (Tensor α)`: `none` is the null handle,
and every slot of a batch owns its tensor (the caller must not alias the slots of one
call).  `Forward` returns the status together with the new `outputs` vector.  A call that
does not return stops in one of the ways listed by `Abort`.  The iterations of the OpenMP
loop touch only their own slot; they are run in index order. -/

namespace Cube

variable {α : Type}

/-- Elementwise negation `-c`. -/
def neg [Neg α] (c : Cube α) : Cube α := { c with mem := fun j => -(c.mem j) }

/-- Elementwise exponential `arma::exp(c)`; the scalar exponential is the parameter
`exp`. -/
def exp (exp : α → α) (c : Cube α) : Cube α := { c with mem := fun j => exp (c.mem j) }

/-- Scalar plus cube `s + c`. -/
def scalar_add [Add α] (s : α) (c : Cube α) : Cube α :=
  { c with mem := fun j => s + c.mem j }

/-- Elementwise quotient `a / b` of two cubes of equal dimensions. -/
def div [Div α] (a b : Cube α) : Cube α :=
  ⟨a.n_rows, a.n_cols, a.n_slices, fun j => a.mem j / b.mem j⟩

end Cube

/-- Modelled from the spec: the enumeration `InferStatus`, declared in a header that is
not among the sources; only the three values returned by `SiLULayer::Forward` are
listed. -/
inductive InferStatus where
  | kInferSuccess
  | kInferFailedInputEmpty
  | kInferFailedInputOutSizeAdaptingError
  deriving DecidableEq

/-- The ways in which a call stops without returning: a failed glog `CHECK`, `->` applied
to a null `shared_ptr`, and `std::vector::at` out of range. -/
inductive Abort where
  | check_failed
  | null_dereference
  | out_of_range
  deriving DecidableEq

namespace SiLULayer

variable {α β : Type}

/-- Result of an operation of `Tensor`, whose only way to stop is a failed `CHECK`. -/
def fatal (r : Option β) : Except Abort β :=
  match r with
  | some b => .ok b
  | none => .error .check_failed

/-- `p->`: access to the tensor behind a handle. -/
def deref (p : Option (Tensor α)) : Except Abort (Tensor α) :=
  match p with
  | some t => .ok t
  | none => .error .null_dereference

/-- `v.at(i)` on a `std::vector`. -/
def vector_at (v : List β) (i : Nat) : Except Abort β :=
  match v[i]? with
  | some b => .ok b
  | none => .error .out_of_range

/-- `SiLULayer::Forward(inputs, outputs)`.  The result is the returned status with the
`outputs` vector as the call leaves it; `exp` is the scalar exponential behind
`arma::exp`. -/
def Forward [DivisionRing α] (exp : α → α) (inputs outputs : List (Option (Tensor α))) :
    Except Abort (InferStatus × List (Option (Tensor α))) :=
  if inputs.isEmpty then
    pure (InferStatus.kInferFailedInputEmpty, outputs)
  else if inputs.length != outputs.length then
    pure (InferStatus.kInferFailedInputOutSizeAdaptingError, outputs)
  else do
    let batch_size := inputs.length
    let outputs ← (List.range batch_size).foldlM
      (fun (outputs : List (Option (Tensor α))) i => do
        let input ← vector_at inputs i
        -- CHECK(input == nullptr || !input->empty())
        match input with
        | none => pure ()
        | some t => fatal (CHECK (!t.empty))
        let output ← vector_at outputs i
        let output ←
          if (match output with
              | none => true
              | some o => o.empty) then do
            let inp ← deref input
            pure (some (Tensor.new (← fatal inp.channels) (← fatal inp.rows)
              (← fatal inp.cols)))
          else pure output
        -- CHECK(output->shapes() == input->shapes())
        let out ← deref output
        let inp ← deref input
        let out_shapes ← fatal out.shapes
        let in_shapes ← fatal inp.shapes
        fatal (CHECK (out_shapes == in_shapes))
        let out ← fatal (out.set_data inp.data)
        let output_data_cube := out.data
        let out : Tensor α :=
          { out with data_ :=
              output_data_cube.div ((output_data_cube.neg.exp exp).scalar_add 1) }
        pure (outputs.set i (some out))) outputs
    pure (InferStatus.kInferSuccess, outputs)

end SiLULayer

end kuiper_infer

/-! ## Auxiliary definitions: concrete tensors and predicates used in the statements -/

namespace kuiper_infer

/-- `Tensor(1, 2, 3)` after `Fill({0, 1, 2, 3, 4, 5})`. -/
def tensor_1x2x3 : Option (Tensor Int) := (Tensor.new 1 2 3).Fill_values [0, 1, 2, 3, 4, 5]

/-- The padded plane that `Padding` builds for channel `i` of the cube `d`: a plane of
`padding_value` with slice `i` copied at offset `(pad_rows1, pad_cols1)`. -/
def padded_plane {α : Type} [Zero α] (d : Cube α)
    (pad_rows1 pad_rows2 pad_cols1 pad_cols2 : Nat) (padding_value : α) (i : Nat) : Mat α :=
  ((Mat.zeros (d.n_rows + pad_rows1 + pad_rows2) (d.n_cols + pad_cols1 + pad_cols2)
      : Mat α).fill padding_value).set_submat pad_rows1 pad_cols1
    (pad_rows1 + d.n_rows - 1) (pad_cols1 + d.n_cols - 1) (d.slice i)

/-- The invariant of the shape record: the product of the `raw_shapes()` entries is
`channels * rows * cols`, and `raw_shapes()` is non-empty whenever the buffer is. -/
def Tensor.raw_shapes_inv {α : Type} (t : Tensor α) : Prop :=
  t.raw_shapes.prod = t.data_.n_slices * t.data_.n_rows * t.data_.n_cols ∧
  (t.empty = false → t.raw_shapes ≠ [])

instance {α : Type} (t : Tensor α) : Decidable t.raw_shapes_inv := by
  unfold Tensor.raw_shapes_inv
  infer_instance

/-- `Flatten()` followed by `ReRawshape(shapes)`. -/
def Flatten_ReRawshape {α : Type} [Zero α] (t : Tensor α) (shapes : List Nat) :
    Option (Tensor α) := do
  let t1 ← t.Flatten
  t1.ReRawshape shapes

/-- `Tensor(2, 2, 2)` after `Flatten()`. -/
def tensor_flat8 : Option (Tensor Int) := (Tensor.new 2 2 2).Flatten

/-- `Tensor(1, 1, 5)`, whose `raw_shapes()` is `[5]`. -/
def tensor_1x1x5 : Tensor Int := Tensor.new 1 1 5

/-- The cube that `SiLULayer::Forward` stores in an output: `c / (1 + exp(-c))`. -/
def silu_cube {α : Type} [DivisionRing α] (exp : α → α) (c : Cube α) : Cube α :=
  c.div ((c.neg.exp exp).scalar_add 1)

/-- One iteration of the loop of `SiLULayer::Forward`, from the handles read from
`inputs.at(i)` and `outputs.at(i)` to the tensor stored back into `outputs.at(i)`. -/
def SiLULayer.item {α : Type} [DivisionRing α] (exp : α → α)
    (input output : Option (Tensor α)) : Except Abort (Tensor α) := do
  match input with
  | none => pure ()
  | some t => SiLULayer.fatal (CHECK (!t.empty))
  let output ←
    if (match output with
        | none => true
        | some o => o.empty) then do
      let inp ← SiLULayer.deref input
      pure (some (Tensor.new (← SiLULayer.fatal inp.channels) (← SiLULayer.fatal inp.rows)
        (← SiLULayer.fatal inp.cols)))
    else pure output
  let out ← SiLULayer.deref output
  let inp ← SiLULayer.deref input
  let out_shapes ← SiLULayer.fatal out.shapes
  let in_shapes ← SiLULayer.fatal inp.shapes
  SiLULayer.fatal (CHECK (out_shapes == in_shapes))
  let out ← SiLULayer.fatal (out.set_data inp.data)
  pure { out with data_ := silu_cube exp out.data }

/-- A stand-in for the exponential in concrete runs over `ℚ`. -/
def exp_series (x : ℚ) : ℚ := 1 + x + x * x / 2

/-- The all-zero tensor of `shapes()` `[1, 2, 2]` over `ℚ`. -/
def zero_1x2x2 : Tensor ℚ := ⟨⟨2, 2, 1, fun _ => 0⟩, [2, 2]⟩

/-- `Tensor(1, 1, 2)`, a tensor with `size() == 2`. -/
def tensor_1x1x2 : Tensor Int := Tensor.new 1 1 2

end kuiper_infer

/-! ## Basic facts -/

namespace kuiper_infer

variable {α : Type}

@[simp] theorem CHECK_true : CHECK true = some () := rfl

@[simp] theorem CHECK_false : CHECK false = none := rfl

theorem CHECK_eq_some (b : Bool) : CHECK b = some () ↔ b = true := by
  cases b <;> simp

namespace Cube

theorem empty_eq_false_iff (c : Cube α) :
    c.empty = false ↔ 0 < c.n_rows ∧ 0 < c.n_cols ∧ 0 < c.n_slices := by
  simp only [empty, n_elem, beq_eq_false_iff_ne, ne_eq, Nat.mul_eq_zero, not_or]
  omega

theorem set3_eq_write (L : Cube α) (i : Nat) (v : α) :
    L.set3 i 0 0 v = L.write i 1 (fun _ => v) := by
  ext x <;> simp only [set3, write, offset]
  by_cases h : x = i
  · subst h; simp
  · have h2 : ¬ (i ≤ x ∧ x < i + 1) := by omega
    simp [h, h2]

theorem set_slice_eq_write (c : Cube α) (i : Nat) (m : Mat α) :
    c.set_slice i m = c.write (i * (c.n_rows * c.n_cols)) (c.n_rows * c.n_cols) m.mem := rfl

theorem write_zero (L : Cube α) (i : Nat) (h : Nat → α) : L.write i 0 h = L := by
  ext x <;> simp only [write]
  have h2 : ¬ (i ≤ x ∧ x < i + 0) := by omega
  simp [h2]

theorem div_mod_block (n m y : Nat) (hy : y < m) :
    (n * m + y) / m = n ∧ (n * m + y) % m = y := by
  have hm : 0 < m := by omega
  constructor
  · rw [Nat.add_comm, Nat.mul_comm, Nat.add_mul_div_left _ _ hm, Nat.div_eq_of_lt hy,
      Nat.zero_add]
  · rw [Nat.add_comm, Nat.mul_comm, Nat.add_mul_mod_self_left, Nat.mod_eq_of_lt hy]

theorem write_write (L : Cube α) (i0 n m : Nat) (F : Nat → Nat → α) :
    (L.write i0 (n * m) (fun z => F (z / m) (z % m))).write (i0 + n * m) m (F n)
      = L.write i0 ((n + 1) * m) (fun z => F (z / m) (z % m)) := by
  ext x <;> simp only [write]
  by_cases hA : i0 + n * m ≤ x ∧ x < i0 + n * m + m
  · have hB : i0 ≤ x ∧ x < i0 + (n + 1) * m := by
      rw [Nat.add_mul, Nat.one_mul]; omega
    have hx : x - i0 = n * m + (x - (i0 + n * m)) := by omega
    have hy : x - (i0 + n * m) < m := by omega
    obtain ⟨h1, h2⟩ := div_mod_block n m _ hy
    simp only [hA, hB, and_self, if_true]
    rw [hx, h1, h2]
  · by_cases hB : i0 ≤ x ∧ x < i0 + n * m
    · have hC : i0 ≤ x ∧ x < i0 + (n + 1) * m := by
        rw [Nat.add_mul, Nat.one_mul]; omega
      simp only [hA, hB, hC, and_self, if_true, if_false]
    · have hC : ¬ (i0 ≤ x ∧ x < i0 + (n + 1) * m) := by
        rw [Nat.add_mul, Nat.one_mul]; omega
      simp only [hA, hB, hC, if_false]

/-- A loop that carries a write position and stores one block of `m` elements per
iteration has stored `n` blocks after `n` iterations. -/
theorem foldl_write_index (g : Cube α × Nat → Nat → Cube α × Nat) (m : Nat)
    (F : Nat → Nat → α)
    (hg : ∀ L i j, g (L, i) j = (L.write i m (F j), i + m)) (n : Nat) (L : Cube α) (i0 : Nat) :
    (List.range n).foldl g (L, i0)
      = (L.write i0 (n * m) (fun z => F (z / m) (z % m)), i0 + n * m) := by
  induction n with
  | zero => simp [write_zero]
  | succ n ih =>
    rw [List.range_succ, List.foldl_append, ih]
    simp only [List.foldl_cons, List.foldl_nil, hg, write_write]
    congr 1
    rw [Nat.add_mul, Nat.one_mul, Nat.add_assoc]

/-- A loop whose iteration `j` stores block `j` into slice `j` has stored the first
`n` slices after `n` iterations. -/
theorem foldl_write_slices (g : Cube α → Nat → Cube α) (R K : Nat) (F : Nat → Nat → α)
    (hg : ∀ L j, L.n_rows = R → L.n_cols = K →
      g L j = L.write (j * (R * K)) (R * K) (F j))
    (n : Nat) (L : Cube α) (hR : L.n_rows = R) (hK : L.n_cols = K) :
    (List.range n).foldl g L
      = L.write 0 (n * (R * K)) (fun z => F (z / (R * K)) (z % (R * K))) := by
  induction n with
  | zero => simp [write_zero]
  | succ n ih =>
    rw [List.range_succ, List.foldl_append, ih]
    simp only [List.foldl_cons, List.foldl_nil]
    refine (hg (L.write 0 (n * (R * K)) fun z => F (z / (R * K)) (z % (R * K))) n hR hK).trans ?_
    have := write_write L 0 n (R * K) F
    simp only [Nat.zero_add] at this
    exact this

end Cube

namespace Tensor

theorem empty_false_dims (t : Tensor α) (hne : t.empty = false) :
    0 < t.data_.n_rows ∧ 0 < t.data_.n_cols ∧ 0 < t.data_.n_slices :=
  (Cube.empty_eq_false_iff t.data_).1 hne

theorem rows_eq (t : Tensor α) (hne : t.empty = false) : t.rows = some t.data_.n_rows := by
  have h : t.data_.empty = false := hne
  simp [rows, h]

theorem cols_eq (t : Tensor α) (hne : t.empty = false) : t.cols = some t.data_.n_cols := by
  have h : t.data_.empty = false := hne
  simp [cols, h]

theorem channels_eq (t : Tensor α) (hne : t.empty = false) :
    t.channels = some t.data_.n_slices := by
  have h : t.data_.empty = false := hne
  simp [channels, h]

theorem size_eq (t : Tensor α) (hne : t.empty = false) :
    t.size = some (t.data_.n_rows * t.data_.n_cols * t.data_.n_slices) := by
  have h : t.data_.empty = false := hne
  simp [size, h, Cube.size, Cube.n_elem]

theorem shapes_eq (t : Tensor α) (hne : t.empty = false) :
    t.shapes = some [t.data_.n_slices, t.data_.n_rows, t.data_.n_cols] := by
  have h : t.data_.empty = false := hne
  simp [shapes, rows_eq t hne, cols_eq t hne, channels_eq t hne, h]

theorem index_eq (t : Tensor α) (i : Nat)
    (hi : i < t.data_.n_rows * t.data_.n_cols * t.data_.n_slices) :
    t.index i = some (t.data_.mem i) := by
  have h : i < t.data_.size := hi
  simp [index, h, Cube.at1]

theorem at_eq (t : Tensor α) (c r k : Nat) (hc : c < t.data_.n_slices)
    (hr : r < t.data_.n_rows) (hk : k < t.data_.n_cols) :
    t.at_ c r k
      = some (t.data_.mem (c * (t.data_.n_rows * t.data_.n_cols) + k * t.data_.n_rows + r)) := by
  have hne : t.empty = false :=
    (Cube.empty_eq_false_iff t.data_).2 ⟨by omega, by omega, by omega⟩
  simp [at_, rows_eq t hne, cols_eq t hne, channels_eq t hne, hc, hr, hk, Cube.at3,
    Cube.offset]

/-- The buffer built by the three nested loops of `Flatten`. -/
theorem Flatten_loop (d : Cube α) (L : Cube α) :
    (List.range d.n_slices).foldl (fun (st : Cube α × Nat) c =>
      (List.range d.n_rows).foldl (fun (st : Cube α × Nat) r =>
        (List.range d.n_cols).foldl (fun (st : Cube α × Nat) c_ =>
          (st.1.set3 st.2 0 0 ((d.slice c).at_ r c_), st.2 + 1)) st) st) (L, 0)
      = (L.write 0 (d.n_slices * (d.n_rows * d.n_cols)) (fun z =>
            (d.slice (z / (d.n_rows * d.n_cols))).at_
              (z % (d.n_rows * d.n_cols) / d.n_cols) (z % (d.n_rows * d.n_cols) % d.n_cols)),
          d.n_slices * (d.n_rows * d.n_cols)) := by
  have inner : ∀ (c r : Nat) (L : Cube α) (i : Nat),
      (List.range d.n_cols).foldl (fun (st : Cube α × Nat) c_ =>
          (st.1.set3 st.2 0 0 ((d.slice c).at_ r c_), st.2 + 1)) (L, i)
        = (L.write i d.n_cols (fun z => (d.slice c).at_ r z), i + d.n_cols) := by
    intro c r L i
    have h := Cube.foldl_write_index (fun (st : Cube α × Nat) c_ =>
          (st.1.set3 st.2 0 0 ((d.slice c).at_ r c_), st.2 + 1)) 1
        (fun j _ => (d.slice c).at_ r j)
        (by intro L i j; simp [Cube.set3_eq_write]) d.n_cols L i
    simpa using h
  have middle : ∀ (c : Nat) (L : Cube α) (i : Nat),
      (List.range d.n_rows).foldl (fun (st : Cube α × Nat) r =>
        (List.range d.n_cols).foldl (fun (st : Cube α × Nat) c_ =>
          (st.1.set3 st.2 0 0 ((d.slice c).at_ r c_), st.2 + 1)) st) (L, i)
        = (L.write i (d.n_rows * d.n_cols)
            (fun z => (d.slice c).at_ (z / d.n_cols) (z % d.n_cols)), i + d.n_rows * d.n_cols) := by
    intro c L i
    exact Cube.foldl_write_index _ d.n_cols (fun r z => (d.slice c).at_ r z)
      (by intro L i j; exact inner c j L i) d.n_rows L i
  have outer := Cube.foldl_write_index (fun (st : Cube α × Nat) c =>
      (List.range d.n_rows).foldl (fun (st : Cube α × Nat) r =>
        (List.range d.n_cols).foldl (fun (st : Cube α × Nat) c_ =>
          (st.1.set3 st.2 0 0 ((d.slice c).at_ r c_), st.2 + 1)) st) st)
      (d.n_rows * d.n_cols) (fun c z => (d.slice c).at_ (z / d.n_cols) (z % d.n_cols))
      (by intro L i j; exact middle j L i) d.n_slices L 0
  simpa using outer

/-- Closed form of `Flatten` on a non-empty tensor. -/
theorem Flatten_eq [Zero α] (t : Tensor α) (hne : t.empty = false) :
    t.Flatten = some
      { data_ := (Cube.zeros t.data_.size 1 1 : Cube α).write 0
          (t.data_.n_slices * (t.data_.n_rows * t.data_.n_cols)) (fun z =>
            (t.data_.slice (z / (t.data_.n_rows * t.data_.n_cols))).at_
              (z % (t.data_.n_rows * t.data_.n_cols) / t.data_.n_cols)
              (z % (t.data_.n_rows * t.data_.n_cols) % t.data_.n_cols))
        raw_shapes_ := [t.data_.size] } := by
  have h : t.data_.empty = false := hne
  have hsz : t.data_.n_slices * (t.data_.n_rows * t.data_.n_cols) = t.data_.size := by
    simp only [Cube.size, Cube.n_elem]; ring
  simp only [Flatten, h, rows_eq t hne, cols_eq t hne, channels_eq t hne, Flatten_loop,
    Bool.not_false, CHECK_true, Option.pure_def, Option.bind_eq_bind, Option.some_bind, hsz,
    beq_self_eq_true]

theorem offset_decomp (c r k R K : Nat) (hr : r < R) (hk : k < K) :
    (c * (R * K) + r * K + k) / (R * K) = c ∧
    (c * (R * K) + r * K + k) % (R * K) / K = r ∧
    (c * (R * K) + r * K + k) % (R * K) % K = k := by
  have h1 : (r + 1) * K ≤ R * K := Nat.mul_le_mul_right K hr
  rw [Nat.add_mul, Nat.one_mul] at h1
  have h2 : r * K + k < R * K := by omega
  obtain ⟨a, b⟩ := Cube.div_mod_block c (R * K) (r * K + k) h2
  obtain ⟨a', b'⟩ := Cube.div_mod_block r K k hk
  rw [Nat.add_assoc, a, b, a', b']
  exact ⟨rfl, rfl, rfl⟩

theorem offset_lt (c r k C R K : Nat) (hc : c < C) (hr : r < R) (hk : k < K) :
    c * (R * K) + r * K + k < C * (R * K) := by
  have h1 : (r + 1) * K ≤ R * K := Nat.mul_le_mul_right K hr
  have h2 : (c + 1) * (R * K) ≤ C * (R * K) := Nat.mul_le_mul_right (R * K) hc
  rw [Nat.add_mul, Nat.one_mul] at h1 h2
  omega

theorem of_accessors (t : Tensor α) (C R K : Nat) (hC : t.channels = some C)
    (hR : t.rows = some R) (hK : t.cols = some K) :
    t.empty = false ∧ t.data_.n_slices = C ∧ t.data_.n_rows = R ∧ t.data_.n_cols = K := by
  have hne : t.empty = false := by
    cases h : t.data_.empty
    · exact h
    · simp [channels, h] at hC
  rw [channels_eq t hne] at hC
  rw [rows_eq t hne] at hR
  rw [cols_eq t hne] at hK
  exact ⟨hne, Option.some.inj hC, Option.some.inj hR, Option.some.inj hK⟩

/-- After `Flatten`, offset `c * (R * K) + r * K + k` holds the element that was at
channel `c`, row `r`, column `k`. -/
theorem Flatten_mem [Zero α] (t t1 : Tensor α) (hne : t.empty = false)
    (h1 : t.Flatten = some t1) (c r k : Nat) (hc : c < t.data_.n_slices)
    (hr : r < t.data_.n_rows) (hk : k < t.data_.n_cols) :
    t1.data_.mem (c * (t.data_.n_rows * t.data_.n_cols) + r * t.data_.n_cols + k)
      = t.data_.mem (c * (t.data_.n_rows * t.data_.n_cols) + k * t.data_.n_rows + r) := by
  rw [Flatten_eq t hne] at h1
  have e := Option.some.inj h1
  subst e
  have hlt := offset_lt c r k _ _ _ hc hr hk
  obtain ⟨a, b, d⟩ := offset_decomp c r k _ _ hr hk
  simp only [Cube.write, Nat.zero_le, Nat.zero_add, true_and, hlt, if_true, Nat.sub_zero,
    a, b, d, Cube.slice, Mat.at_]
  rw [Nat.add_assoc]

theorem Flatten_dims [Zero α] (t t1 : Tensor α) (hne : t.empty = false)
    (h1 : t.Flatten = some t1) :
    t1.data_.n_rows = t.data_.n_rows * t.data_.n_cols * t.data_.n_slices ∧
    t1.data_.n_cols = 1 ∧ t1.data_.n_slices = 1 ∧
    t1.raw_shapes_ = [t.data_.n_rows * t.data_.n_cols * t.data_.n_slices] ∧
    t1.empty = false := by
  rw [Flatten_eq t hne] at h1
  have e := Option.some.inj h1
  subst e
  obtain ⟨a, b, c⟩ := empty_false_dims t hne
  refine ⟨rfl, rfl, rfl, rfl, ?_⟩
  apply (Cube.empty_eq_false_iff _).2
  simp only [Cube.write, Cube.zeros, Cube.size, Cube.n_elem]
  exact ⟨Nat.mul_pos (Nat.mul_pos a b) c, Nat.one_pos, Nat.one_pos⟩

theorem offset_decomp_col (c r k R K : Nat) (hr : r < R) (hk : k < K) :
    (c * (R * K) + k * R + r) / (R * K) = c ∧
    (c * (R * K) + k * R + r) % (R * K) / R = k ∧
    (c * (R * K) + k * R + r) % (R * K) % R = r := by
  have h := offset_decomp c k r K R hk hr
  rw [Nat.mul_comm K R] at h
  exact h

theorem offset_lt_col (c r k C R K : Nat) (hc : c < C) (hr : r < R) (hk : k < K) :
    c * (R * K) + k * R + r < C * (R * K) := by
  have h := offset_lt c k r C K R hc hk hr
  rw [Nat.mul_comm K R] at h
  exact h

/-- Closed form of `Fill(values)` on a non-empty tensor given a vector of the right
length. -/
theorem Fill_values_eq [Zero α] (t : Tensor α) (values : List α) (hne : t.empty = false)
    (hlen : values.length = t.data_.n_rows * t.data_.n_cols * t.data_.n_slices) :
    t.Fill_values values = some
      { data_ := t.data_.write 0
          (t.data_.n_slices * (t.data_.n_rows * t.data_.n_cols)) (fun z =>
            (Mat.of_ptr values
              (z / (t.data_.n_rows * t.data_.n_cols) * (t.data_.n_rows * t.data_.n_cols))
              t.data_.n_cols t.data_.n_rows).t.mem (z % (t.data_.n_rows * t.data_.n_cols)))
        raw_shapes_ := t.raw_shapes_ } := by
  have h : t.data_.empty = false := hne
  have hl : values.length = t.data_.size := hlen
  have hloop := Cube.foldl_write_slices (fun (data : Cube α) i =>
      data.set_slice i
        (Mat.of_ptr values (i * (t.data_.n_rows * t.data_.n_cols))
          t.data_.n_cols t.data_.n_rows).t)
      t.data_.n_rows t.data_.n_cols
      (fun i => (Mat.of_ptr values (i * (t.data_.n_rows * t.data_.n_cols))
          t.data_.n_cols t.data_.n_rows).t.mem)
      (by intro L j hR hK
          show L.set_slice j _ = _
          rw [Cube.set_slice_eq_write, hR, hK])
      t.data_.n_slices t.data_ rfl rfl
  simp only [Fill_values, h, hl, rows_eq t hne, cols_eq t hne, hloop,
    Bool.not_false, CHECK_true, Option.pure_def, Option.bind_eq_bind, Option.some_bind,
    beq_self_eq_true]

/-- After `Fill(values)`, the element at channel `c`, row `r`, column `k` is
`values[c * (R * K) + r * K + k]`. -/
theorem Fill_values_mem [Zero α] (t : Tensor α) (values : List α) (hne : t.empty = false)
    (hlen : values.length = t.data_.n_rows * t.data_.n_cols * t.data_.n_slices)
    (c r k : Nat) (hc : c < t.data_.n_slices) (hr : r < t.data_.n_rows)
    (hk : k < t.data_.n_cols) :
    ∃ t1, t.Fill_values values = some t1 ∧
      t1.data_.n_rows = t.data_.n_rows ∧ t1.data_.n_cols = t.data_.n_cols ∧
      t1.data_.n_slices = t.data_.n_slices ∧ t1.raw_shapes_ = t.raw_shapes_ ∧
      t1.data_.mem (c * (t.data_.n_rows * t.data_.n_cols) + k * t.data_.n_rows + r)
        = values.getD (c * (t.data_.n_rows * t.data_.n_cols) + r * t.data_.n_cols + k) 0 := by
  refine ⟨_, Fill_values_eq t values hne hlen, rfl, rfl, rfl, rfl, ?_⟩
  have hlt := offset_lt_col c r k _ _ _ hc hr hk
  obtain ⟨a, _, _⟩ := offset_decomp_col c r k _ _ hr hk
  obtain ⟨e, f⟩ := Cube.div_mod_block k t.data_.n_rows r hr
  have g : (c * (t.data_.n_rows * t.data_.n_cols) + k * t.data_.n_rows + r)
      % (t.data_.n_rows * t.data_.n_cols) = k * t.data_.n_rows + r := by
    have h2 := Cube.div_mod_block c (t.data_.n_rows * t.data_.n_cols)
      (k * t.data_.n_rows + r)
      (by have := offset_lt_col 0 r k 1 _ _ Nat.one_pos hr hk
          simpa using this)
    rw [Nat.add_assoc]; exact h2.2
  simp only [Cube.write, Nat.zero_le, Nat.zero_add, true_and, hlt, if_true, Nat.sub_zero,
    a, g, e, f, Mat.t, Mat.of_ptr, Mat.at_]
  rw [Nat.add_assoc]

theorem u32_foldl (shapes : List Nat) (a : Nat) :
    shapes.foldl (fun current_size s => u32 (current_size * s)) (u32 a)
      = u32 (a * shapes.prod) := by
  induction shapes generalizing a with
  | nil => simp
  | cons s l ih =>
    have h : u32 (u32 a * s) = u32 (a * s) := by
      simp only [u32, Nat.mod_mul_mod]
    rw [List.foldl_cons, h, ih, List.prod_cons, Nat.mul_assoc]

theorem u32_product (shapes : List Nat) :
    shapes.foldl (fun current_size s => u32 (current_size * s)) 1 = u32 shapes.prod := by
  have h := u32_foldl shapes 1
  rw [Nat.one_mul] at h
  exact h

/-- `ReRawshape` succeeds exactly when the list has one to three entries and the wrapped
product agrees with the wrapped size; its result is the reshaped buffer. -/
theorem ReRawshape_eq [Zero α] (t : Tensor α) (shapes : List Nat) (hne : t.empty = false)
    (h1 : shapes ≠ []) (h2 : shapes.length ≤ 3)
    (h3 : u32 shapes.prod = u32 (t.data_.n_rows * t.data_.n_cols * t.data_.n_slices)) :
    t.ReRawshape shapes = some
      { data_ :=
          if shapes.length == 3 then
            t.data_.reshape (shapes.getD 1 0) (shapes.getD 2 0) (shapes.getD 0 0)
          else if shapes.length == 2 then
            t.data_.reshape (shapes.getD 0 0) (shapes.getD 1 0) 1
          else
            t.data_.reshape (shapes.getD 0 0) 1 1
        raw_shapes_ := shapes } := by
  have h0 : shapes.isEmpty = false := by
    cases shapes with
    | nil => exact absurd rfl h1
    | cons a l => rfl
  simp only [ReRawshape, h0, size_eq t hne, u32_product, h2, h3, Bool.not_false, CHECK_true,
    Option.pure_def, Option.bind_eq_bind, Option.some_bind, beq_self_eq_true, decide_True]

theorem ReRawshape_some [Zero α] (t t1 : Tensor α) (shapes : List Nat)
    (h : t.ReRawshape shapes = some t1) :
    t.empty = false ∧ shapes ≠ [] ∧ shapes.length ≤ 3 ∧
    t1 =
      { data_ :=
          if shapes.length == 3 then
            t.data_.reshape (shapes.getD 1 0) (shapes.getD 2 0) (shapes.getD 0 0)
          else if shapes.length == 2 then
            t.data_.reshape (shapes.getD 0 0) (shapes.getD 1 0) 1
          else
            t.data_.reshape (shapes.getD 0 0) 1 1
        raw_shapes_ := shapes } := by
  have hne : t.empty = false := by
    cases he : t.data_.empty
    · exact he
    · cases hs : shapes.isEmpty <;> simp [ReRawshape, size, he, hs] at h
  have h1 : shapes ≠ [] := by
    rintro rfl
    simp [ReRawshape] at h
  have h2 : shapes.length ≤ 3 := by
    by_contra hc
    have h0 : shapes.isEmpty = false := by
      cases shapes with
      | nil => exact absurd rfl h1
      | cons a l => rfl
    simp [ReRawshape, h0, size_eq t hne, hc] at h
  refine ⟨hne, h1, h2, ?_⟩
  have h0 : shapes.isEmpty = false := by
    cases shapes with
    | nil => exact absurd rfl h1
    | cons a l => rfl
  simp only [ReRawshape, h0, size_eq t hne, u32_product, h2, Bool.not_false, CHECK_true,
    Option.pure_def, Option.bind_eq_bind, Option.some_bind, decide_True] at h
  cases hb : (u32 shapes.prod == u32 (t.data_.n_rows * t.data_.n_cols * t.data_.n_slices))
  · rw [hb] at h; simp at h
  · rw [hb] at h
    simp only [CHECK_true, Option.some_bind] at h
    exact (Option.some.inj h).symm

/-- Every offset below `C * (R * K)` is `c * (R * K) + r * K + k` for in-range
`(c, r, k)`. -/
theorem offset_split (i C R K : Nat) (hi : i < C * (R * K)) :
    ∃ c r k, c < C ∧ r < R ∧ k < K ∧ i = c * (R * K) + r * K + k := by
  have hRK : 0 < R * K := by
    rcases Nat.eq_zero_or_pos (R * K) with h | h
    · rw [h] at hi; omega
    · exact h
  have hK : 0 < K := Nat.pos_of_mul_pos_left hRK
  refine ⟨i / (R * K), i % (R * K) / K, i % (R * K) % K, ?_, ?_, Nat.mod_lt _ hK, ?_⟩
  · exact Nat.div_lt_of_lt_mul (by rw [Nat.mul_comm (R * K) C]; exact hi)
  · exact Nat.div_lt_of_lt_mul (by rw [Nat.mul_comm K R]; exact Nat.mod_lt _ hRK)
  · have h1 := Nat.div_add_mod i (R * K)
    have h2 := Nat.div_add_mod (i % (R * K)) K
    rw [Nat.mul_comm] at h1 h2
    omega

/-- `ReRawshape` keeps every element of the old buffer at its linear offset. -/
theorem ReRawshape_mem [Zero α] (t t1 : Tensor α) (shapes : List Nat)
    (h : t.ReRawshape shapes = some t1) (i : Nat)
    (hi : i < t.data_.n_rows * t.data_.n_cols * t.data_.n_slices) :
    t1.data_.mem i = t.data_.mem i := by
  obtain ⟨_, _, _, e⟩ := ReRawshape_some t t1 shapes h
  have hi2 : i < t.data_.n_elem := hi
  subst e
  by_cases c3 : (shapes.length == 3) = true
  · simp [c3, Cube.reshape, hi2]
  · by_cases c2 : (shapes.length == 2) = true
    · simp [c3, c2, Cube.reshape, hi2]
    · simp [c3, c2, Cube.reshape, hi2]

theorem ReRawshape_raw [Zero α] (t t1 : Tensor α) (shapes : List Nat)
    (h : t.ReRawshape shapes = some t1) : t1.raw_shapes_ = shapes := by
  obtain ⟨_, _, _, e⟩ := ReRawshape_some t t1 shapes h
  subst e
  rfl

/-- Dimensions `(n_rows, n_cols, n_slices)` chosen by `ReRawshape`. -/
theorem ReRawshape_dims [Zero α] (t t1 : Tensor α) (shapes : List Nat)
    (h : t.ReRawshape shapes = some t1) :
    (∀ s0 s1 s2, shapes = [s0, s1, s2] →
      t1.data_.n_rows = s1 ∧ t1.data_.n_cols = s2 ∧ t1.data_.n_slices = s0) ∧
    (∀ s0 s1, shapes = [s0, s1] →
      t1.data_.n_rows = s0 ∧ t1.data_.n_cols = s1 ∧ t1.data_.n_slices = 1) ∧
    (∀ s0, shapes = [s0] →
      t1.data_.n_rows = s0 ∧ t1.data_.n_cols = 1 ∧ t1.data_.n_slices = 1) := by
  obtain ⟨_, _, _, e⟩ := ReRawshape_some t t1 shapes h
  subst e
  refine ⟨?_, ?_, ?_⟩
  · rintro s0 s1 s2 rfl
    simp [Cube.reshape]
  · rintro s0 s1 rfl
    simp [Cube.reshape]
  · rintro s0 rfl
    simp [Cube.reshape]

/-- The cube built by the loop of `Padding` after `n + 1` iterations. -/
theorem Padding_loop [Zero α] (d : Cube α) (hd : d.empty = false)
    (p1 p2 p3 p4 : Nat) (v : α) (channels n : Nat) (hch : 0 < channels) :
    (List.range (n + 1)).foldlM (fun (padded_cube : Cube α) i => do
      let sub_mat := d.slice i
      CHECK (!sub_mat.empty)
      let padded_mat : Mat α :=
        Mat.zeros (sub_mat.n_rows + p1 + p2) (sub_mat.n_cols + p3 + p4)
      let padded_mat := padded_mat.fill v
      let padded_mat := padded_mat.set_submat p1 p3
        (p1 + sub_mat.n_rows - 1) (p3 + sub_mat.n_cols - 1) sub_mat
      let padded_cube :=
        if padded_cube.empty then Cube.zeros padded_mat.n_rows padded_mat.n_cols channels
        else padded_cube
      pure (padded_cube.set_slice i padded_mat)) Cube.nil
    = some ((Cube.zeros (d.n_rows + p1 + p2) (d.n_cols + p3 + p4) channels : Cube α).write 0
        ((n + 1) * ((d.n_rows + p1 + p2) * (d.n_cols + p3 + p4)))
        (fun z => (padded_plane d p1 p2 p3 p4 v
          (z / ((d.n_rows + p1 + p2) * (d.n_cols + p3 + p4)))).mem
            (z % ((d.n_rows + p1 + p2) * (d.n_cols + p3 + p4))))) := by
  obtain ⟨pR, pK, _⟩ := (Cube.empty_eq_false_iff d).1 hd
  have hsub : ∀ i, (d.slice i).empty = false := by
    intro i
    simp only [Mat.empty, Mat.n_elem, Cube.slice, beq_eq_false_iff_ne, ne_eq, Nat.mul_eq_zero,
      not_or]
    omega
  induction n with
  | zero =>
    have hnil : (Cube.nil : Cube α).empty = true := rfl
    have hw := Cube.write_write
      (Cube.zeros (d.n_rows + p1 + p2) (d.n_cols + p3 + p4) channels : Cube α) 0 0
      ((d.n_rows + p1 + p2) * (d.n_cols + p3 + p4))
      (fun j => (padded_plane d p1 p2 p3 p4 v j).mem)
    simp only [Nat.zero_mul, Cube.write_zero, Nat.zero_add] at hw
    simp only [List.range_succ, List.range_zero, List.nil_append, List.foldlM_cons,
      List.foldlM_nil, hsub, hnil, Bool.not_false, CHECK_true, Option.pure_def,
      Option.bind_eq_bind, Option.some_bind, if_true, Cube.set_slice_eq_write,
      Nat.zero_add]
    rw [← hw, Nat.zero_mul]
    rfl
  | succ n ih =>
    rw [List.range_succ, List.foldlM_append, ih]
    have hS : (((Cube.zeros (d.n_rows + p1 + p2) (d.n_cols + p3 + p4) channels : Cube α).write 0
        ((n + 1) * ((d.n_rows + p1 + p2) * (d.n_cols + p3 + p4)))
        (fun z => (padded_plane d p1 p2 p3 p4 v
          (z / ((d.n_rows + p1 + p2) * (d.n_cols + p3 + p4)))).mem
            (z % ((d.n_rows + p1 + p2) * (d.n_cols + p3 + p4))))).empty) = false := by
      apply (Cube.empty_eq_false_iff _).2
      simp only [Cube.write, Cube.zeros]
      omega
    have hw := Cube.write_write
      (Cube.zeros (d.n_rows + p1 + p2) (d.n_cols + p3 + p4) channels : Cube α) 0 (n + 1)
      ((d.n_rows + p1 + p2) * (d.n_cols + p3 + p4))
      (fun j => (padded_plane d p1 p2 p3 p4 v j).mem)
    simp only [Nat.zero_add] at hw
    simp only [List.foldlM_cons, List.foldlM_nil, hsub, hS, Bool.not_false, CHECK_true,
      Option.pure_def, Option.bind_eq_bind, Option.some_bind, Cube.set_slice_eq_write,
      Bool.false_eq_true, if_false]
    rw [← hw]
    rfl

theorem Padding_loop_pos [Zero α] (d : Cube α) (hd : d.empty = false)
    (p1 p2 p3 p4 : Nat) (v : α) (channels m : Nat) (hch : 0 < channels) (hm : 0 < m) :
    (List.range m).foldlM (fun (padded_cube : Cube α) i => do
      let sub_mat := d.slice i
      CHECK (!sub_mat.empty)
      let padded_mat : Mat α :=
        Mat.zeros (sub_mat.n_rows + p1 + p2) (sub_mat.n_cols + p3 + p4)
      let padded_mat := padded_mat.fill v
      let padded_mat := padded_mat.set_submat p1 p3
        (p1 + sub_mat.n_rows - 1) (p3 + sub_mat.n_cols - 1) sub_mat
      let padded_cube :=
        if padded_cube.empty then Cube.zeros padded_mat.n_rows padded_mat.n_cols channels
        else padded_cube
      pure (padded_cube.set_slice i padded_mat)) Cube.nil
    = some ((Cube.zeros (d.n_rows + p1 + p2) (d.n_cols + p3 + p4) channels : Cube α).write 0
        (m * ((d.n_rows + p1 + p2) * (d.n_cols + p3 + p4)))
        (fun z => (padded_plane d p1 p2 p3 p4 v
          (z / ((d.n_rows + p1 + p2) * (d.n_cols + p3 + p4)))).mem
            (z % ((d.n_rows + p1 + p2) * (d.n_cols + p3 + p4))))) := by
  obtain ⟨n, rfl⟩ : ∃ n, m = n + 1 := ⟨m - 1, by omega⟩
  exact Padding_loop d hd p1 p2 p3 p4 v channels n hch

/-- Closed form of `Padding` on a non-empty tensor with four pads. -/
theorem Padding_eq [Zero α] (t : Tensor α) (hne : t.empty = false)
    (top bottom left right : Nat) (v : α) :
    t.Padding [top, bottom, left, right] v = some
      { data_ := (Cube.zeros (t.data_.n_rows + top + bottom) (t.data_.n_cols + left + right)
            t.data_.n_slices : Cube α).write 0
          (t.data_.n_slices * ((t.data_.n_rows + top + bottom) * (t.data_.n_cols + left + right)))
          (fun z => (padded_plane t.data_ top bottom left right v
            (z / ((t.data_.n_rows + top + bottom) * (t.data_.n_cols + left + right)))).mem
              (z % ((t.data_.n_rows + top + bottom) * (t.data_.n_cols + left + right))))
        raw_shapes_ :=
          [t.data_.n_slices, t.data_.n_rows + top + bottom, t.data_.n_cols + left + right] } := by
  have h : t.data_.empty = false := hne
  obtain ⟨pR, pK, pC⟩ := empty_false_dims t hne
  have hloop := Padding_loop_pos t.data_ h top bottom left right v t.data_.n_slices
    t.data_.n_slices pC pC
  have hne1 : ((Cube.zeros (t.data_.n_rows + top + bottom) (t.data_.n_cols + left + right)
            t.data_.n_slices : Cube α).write 0
          (t.data_.n_slices * ((t.data_.n_rows + top + bottom) * (t.data_.n_cols + left + right)))
          (fun z => (padded_plane t.data_ top bottom left right v
            (z / ((t.data_.n_rows + top + bottom) * (t.data_.n_cols + left + right)))).mem
              (z % ((t.data_.n_rows + top + bottom) * (t.data_.n_cols + left + right))))).empty
      = false := by
    apply (Cube.empty_eq_false_iff _).2
    simp only [Cube.write, Cube.zeros]
    omega
  simp only [Option.pure_def, Option.bind_eq_bind] at hloop
  simp only [Padding, h, channels_eq t hne, pC, List.getD_cons_zero, List.getD_cons_succ,
    List.length_cons, List.length_nil, Bool.not_false, CHECK_true, Option.pure_def,
    Option.bind_eq_bind, Option.some_bind, beq_self_eq_true, gt_iff_lt, decide_True,
    shapes, rows, cols, channels]
  rw [hloop]
  simp only [Option.some_bind, hne1, Bool.not_false, CHECK_true]
  rfl

/-- Every element of the padded buffer: inside the copied rectangle it is the old
element, elsewhere the padding value. -/
theorem Padding_mem [Zero α] (t t1 : Tensor α) (hne : t.empty = false)
    (top bottom left right : Nat) (v : α)
    (h1 : t.Padding [top, bottom, left, right] v = some t1) (c r k : Nat)
    (hc : c < t.data_.n_slices) (hr : r < t.data_.n_rows + top + bottom)
    (hk : k < t.data_.n_cols + left + right) :
    t1.data_.mem (c * ((t.data_.n_rows + top + bottom) * (t.data_.n_cols + left + right))
        + k * (t.data_.n_rows + top + bottom) + r)
      = if top ≤ r ∧ r ≤ top + t.data_.n_rows - 1 ∧ left ≤ k ∧ k ≤ left + t.data_.n_cols - 1
        then t.data_.mem (c * (t.data_.n_rows * t.data_.n_cols)
          + ((k - left) * t.data_.n_rows + (r - top)))
        else v := by
  rw [Padding_eq t hne] at h1
  have e := Option.some.inj h1
  subst e
  have hlt := offset_lt_col c r k _ _ _ hc hr hk
  obtain ⟨a, _, _⟩ := offset_decomp_col c r k _ _ hr hk
  obtain ⟨e, f⟩ := Cube.div_mod_block k (t.data_.n_rows + top + bottom) r hr
  have g : (c * ((t.data_.n_rows + top + bottom) * (t.data_.n_cols + left + right))
        + k * (t.data_.n_rows + top + bottom) + r)
      % ((t.data_.n_rows + top + bottom) * (t.data_.n_cols + left + right))
      = k * (t.data_.n_rows + top + bottom) + r := by
    have h2 := Cube.div_mod_block c
      ((t.data_.n_rows + top + bottom) * (t.data_.n_cols + left + right))
      (k * (t.data_.n_rows + top + bottom) + r)
      (by have := offset_lt_col 0 r k 1 _ _ Nat.one_pos hr hk
          simpa using this)
    rw [Nat.add_assoc]; exact h2.2
  simp only [Cube.write, Nat.zero_le, Nat.zero_add, true_and, hlt, if_true, Nat.sub_zero,
    a, g, padded_plane, Mat.set_submat, Mat.zeros, Mat.fill, e, f, Mat.at_, Cube.slice]

theorem Padding_dims [Zero α] (t t1 : Tensor α) (hne : t.empty = false)
    (top bottom left right : Nat) (v : α)
    (h1 : t.Padding [top, bottom, left, right] v = some t1) :
    t1.data_.n_rows = t.data_.n_rows + top + bottom ∧
    t1.data_.n_cols = t.data_.n_cols + left + right ∧
    t1.data_.n_slices = t.data_.n_slices ∧
    t1.raw_shapes_
      = [t.data_.n_slices, t.data_.n_rows + top + bottom, t.data_.n_cols + left + right] ∧
    t1.empty = false := by
  rw [Padding_eq t hne] at h1
  have e := Option.some.inj h1
  subst e
  obtain ⟨a, b, c⟩ := empty_false_dims t hne
  refine ⟨rfl, rfl, rfl, rfl, ?_⟩
  apply (Cube.empty_eq_false_iff _).2
  simp only [Cube.write, Cube.zeros]
  omega

theorem set_data_some (t t1 : Tensor α) (d : Cube α) (h : t.set_data d = some t1) :
    t1.data_.n_rows = t.data_.n_rows ∧ t1.data_.n_cols = t.data_.n_cols ∧
    t1.data_.n_slices = t.data_.n_slices ∧ t1.raw_shapes_ = t.raw_shapes_ := by
  unfold set_data at h
  by_cases c1 : d.n_rows = t.data_.n_rows
  · by_cases c2 : d.n_cols = t.data_.n_cols
    · by_cases c3 : d.n_slices = t.data_.n_slices
      · simp [c1, c2, c3] at h
        subst h
        exact ⟨c1, c2, c3, rfl⟩
      · have b3 : (d.n_slices == t.data_.n_slices) = false := beq_eq_false_iff_ne.2 c3
        simp [c1, c2, b3] at h
    · have b2 : (d.n_cols == t.data_.n_cols) = false := beq_eq_false_iff_ne.2 c2
      simp [c1, b2] at h
  · have b1 : (d.n_rows == t.data_.n_rows) = false := beq_eq_false_iff_ne.2 c1
    simp [b1] at h

theorem Fill_value_some (t t1 : Tensor α) (v : α) (h : t.Fill_value v = some t1) :
    t1.data_.n_rows = t.data_.n_rows ∧ t1.data_.n_cols = t.data_.n_cols ∧
    t1.data_.n_slices = t.data_.n_slices ∧ t1.raw_shapes_ = t.raw_shapes_ := by
  unfold Fill_value at h
  cases he : t.data_.empty
  · simp [he] at h
    subst h
    exact ⟨rfl, rfl, rfl, rfl⟩
  · simp [he] at h

theorem Transform_some (t t1 : Tensor α) (f : α → α) (h : t.Transform f = some t1) :
    t1.data_.n_rows = t.data_.n_rows ∧ t1.data_.n_cols = t.data_.n_cols ∧
    t1.data_.n_slices = t.data_.n_slices ∧ t1.raw_shapes_ = t.raw_shapes_ := by
  unfold Transform at h
  cases he : t.data_.empty
  · simp [he] at h
    subst h
    exact ⟨rfl, rfl, rfl, rfl⟩
  · simp [he] at h

theorem Ones_some [One α] (t t1 : Tensor α) (h : t.Ones = some t1) :
    t1.data_.n_rows = t.data_.n_rows ∧ t1.data_.n_cols = t.data_.n_cols ∧
    t1.data_.n_slices = t.data_.n_slices ∧ t1.raw_shapes_ = t.raw_shapes_ := by
  unfold Ones at h
  cases he : t.data_.empty
  · simp [he] at h
    subst h
    exact ⟨rfl, rfl, rfl, rfl⟩
  · simp [he] at h

theorem Fill_values_some [Zero α] (t t1 : Tensor α) (values : List α)
    (h : t.Fill_values values = some t1) :
    t1.data_.n_rows = t.data_.n_rows ∧ t1.data_.n_cols = t.data_.n_cols ∧
    t1.data_.n_slices = t.data_.n_slices ∧ t1.raw_shapes_ = t.raw_shapes_ := by
  cases he : t.data_.empty
  · by_cases hl : values.length = t.data_.n_rows * t.data_.n_cols * t.data_.n_slices
    · rw [Fill_values_eq t values he hl] at h
      have e := Option.some.inj h
      subst e
      exact ⟨rfl, rfl, rfl, rfl⟩
    · have hl2 : (values.length == t.data_.size) = false := beq_eq_false_iff_ne.2 hl
      simp [Fill_values, he, hl2] at h
  · simp [Fill_values, he] at h

theorem Flatten_some [Zero α] (t t1 : Tensor α) (h : t.Flatten = some t1) :
    t.empty = false := by
  cases he : t.data_.empty
  · exact he
  · simp [Flatten, he] at h

theorem Padding_some [Zero α] (t t1 : Tensor α) (pads : List Nat) (v : α)
    (h : t.Padding pads v = some t1) :
    t.empty = false ∧ ∃ top bottom left right, pads = [top, bottom, left, right] := by
  have hne : t.empty = false := by
    cases he : t.data_.empty
    · exact he
    · simp [Padding, he] at h
  refine ⟨hne, ?_⟩
  have he : t.data_.empty = false := hne
  by_cases hl : pads.length = 4
  · match pads, hl with
    | [a, b, c, d], _ => exact ⟨a, b, c, d, rfl⟩
  · have hl2 : (pads.length == 4) = false := beq_eq_false_iff_ne.2 hl
    simp [Padding, he, hl2] at h

theorem ElementAdd_some [Zero α] [Add α] (a b t1 : Tensor α)
    (h : ElementAdd a b = some t1) :
    a.empty = false ∧ b.empty = false ∧ a.shapes = b.shapes ∧
    t1 = { data_ := a.data_.add b.data_,
           raw_shapes_ := (Tensor.new a.data_.n_slices a.data_.n_rows a.data_.n_cols
              : Tensor α).raw_shapes_ } := by
  cases ha : a.empty
  · cases hb : b.empty
    · have hs : a.shapes = b.shapes := by
        by_contra hc
        rw [shapes_eq a ha, shapes_eq b hb] at hc
        have hc2 : ([a.data_.n_slices, a.data_.n_rows, a.data_.n_cols]
            == [b.data_.n_slices, b.data_.n_rows, b.data_.n_cols]) = false :=
          beq_eq_false_iff_ne.2 (fun e => hc (by rw [e]))
        simp only [ElementAdd, ha, hb, shapes_eq a ha, shapes_eq b hb, hc2, Bool.not_false,
          Bool.and_self, CHECK_true, CHECK_false, Option.bind_eq_bind, Option.some_bind,
          Option.none_bind] at h
        exact absurd h (by simp)
      refine ⟨rfl, rfl, hs, ?_⟩
      have hs2 := hs
      rw [shapes_eq a ha, shapes_eq b hb] at hs2
      have hs3 := Option.some.inj hs2
      simp [ElementAdd, ha, hb, shapes_eq a ha, shapes_eq b hb, channels_eq a ha,
        rows_eq a ha, cols_eq a ha, ← hs3] at h
      exact h.symm
    · simp [ElementAdd, ha, hb] at h
  · simp [ElementAdd, ha] at h

theorem ElementMultiply_some [Zero α] [Mul α] (a b t1 : Tensor α)
    (h : ElementMultiply a b = some t1) :
    a.empty = false ∧ b.empty = false ∧ a.shapes = b.shapes ∧
    t1 = { data_ := a.data_.schur b.data_,
           raw_shapes_ := (Tensor.new a.data_.n_slices a.data_.n_rows a.data_.n_cols
              : Tensor α).raw_shapes_ } := by
  cases ha : a.empty
  · cases hb : b.empty
    · have hs : a.shapes = b.shapes := by
        by_contra hc
        rw [shapes_eq a ha, shapes_eq b hb] at hc
        have hc2 : ([a.data_.n_slices, a.data_.n_rows, a.data_.n_cols]
            == [b.data_.n_slices, b.data_.n_rows, b.data_.n_cols]) = false :=
          beq_eq_false_iff_ne.2 (fun e => hc (by rw [e]))
        simp only [ElementMultiply, ha, hb, shapes_eq a ha, shapes_eq b hb, hc2,
          Bool.not_false, Bool.and_self, CHECK_true, CHECK_false, Option.bind_eq_bind,
          Option.some_bind, Option.none_bind] at h
        exact absurd h (by simp)
      refine ⟨rfl, rfl, hs, ?_⟩
      have hs2 := hs
      rw [shapes_eq a ha, shapes_eq b hb] at hs2
      have hs3 := Option.some.inj hs2
      simp [ElementMultiply, ha, hb, shapes_eq a ha, shapes_eq b hb, channels_eq a ha,
        rows_eq a ha, cols_eq a ha, ← hs3] at h
      exact h.symm
    · simp [ElementMultiply, ha, hb] at h
  · simp [ElementMultiply, ha] at h

/-- The constructor establishes the shape invariant. -/
theorem new_inv [Zero α] (c r k : Nat) : (Tensor.new c r k : Tensor α).raw_shapes_inv := by
  unfold raw_shapes_inv raw_shapes Tensor.new
  constructor
  · by_cases h1 : c = 1
    · by_cases h2 : r = 1
      · simp [h1, h2, Cube.zeros]
      · simp [h1, h2, Cube.zeros]
    · simp [h1, Cube.zeros, Nat.mul_assoc]
  · intro _
    by_cases h1 : c = 1
    · by_cases h2 : r = 1
      · simp [h1, h2]
      · simp [h1, h2]
    · simp [h1]

/-- An operation that keeps the dimensions and the shape record keeps the invariant. -/
theorem inv_of_same (t t1 : Tensor α) (ht : t.raw_shapes_inv)
    (h : t1.data_.n_rows = t.data_.n_rows ∧ t1.data_.n_cols = t.data_.n_cols ∧
      t1.data_.n_slices = t.data_.n_slices ∧ t1.raw_shapes_ = t.raw_shapes_) :
    t1.raw_shapes_inv := by
  obtain ⟨a, b, c, d⟩ := h
  unfold raw_shapes_inv raw_shapes at *
  rw [a, b, c, d]
  refine ⟨ht.1, fun he => ht.2 ?_⟩
  have he2 : t1.data_.empty = false := he
  show t.data_.empty = false
  simp only [Cube.empty, Cube.n_elem] at he2 ⊢
  rw [← a, ← b, ← c]
  exact he2

/-- Closed form of `ElementAdd` on non-empty tensors of equal `shapes()`. -/
theorem ElementAdd_eq [Zero α] [Add α] (a b : Tensor α) (ha : a.empty = false)
    (hb : b.empty = false) (hs : a.shapes = b.shapes) :
    ElementAdd a b = some
      { data_ := a.data_.add b.data_,
        raw_shapes_ := (Tensor.new a.data_.n_slices a.data_.n_rows a.data_.n_cols
          : Tensor α).raw_shapes_ } := by
  rw [shapes_eq a ha, shapes_eq b hb] at hs
  have hs3 := Option.some.inj hs
  simp [ElementAdd, ha, hb, shapes_eq a ha, shapes_eq b hb, channels_eq a ha,
    rows_eq a ha, cols_eq a ha, ← hs3]

/-- Closed form of `ElementMultiply` on non-empty tensors of equal `shapes()`. -/
theorem ElementMultiply_eq [Zero α] [Mul α] (a b : Tensor α) (ha : a.empty = false)
    (hb : b.empty = false) (hs : a.shapes = b.shapes) :
    ElementMultiply a b = some
      { data_ := a.data_.schur b.data_,
        raw_shapes_ := (Tensor.new a.data_.n_slices a.data_.n_rows a.data_.n_cols
          : Tensor α).raw_shapes_ } := by
  rw [shapes_eq a ha, shapes_eq b hb] at hs
  have hs3 := Option.some.inj hs
  simp [ElementMultiply, ha, hb, shapes_eq a ha, shapes_eq b hb, channels_eq a ha,
    rows_eq a ha, cols_eq a ha, ← hs3]

theorem shapes_eq_dims (a b : Tensor α) (ha : a.empty = false) (hb : b.empty = false)
    (hs : a.shapes = b.shapes) :
    a.data_.n_slices = b.data_.n_slices ∧ a.data_.n_rows = b.data_.n_rows ∧
    a.data_.n_cols = b.data_.n_cols := by
  rw [shapes_eq a ha, shapes_eq b hb] at hs
  have hs3 := Option.some.inj hs
  simp only [List.cons.injEq, and_true] at hs3
  exact hs3

theorem Padding_inv [Zero α] (t t1 : Tensor α) (pads : List Nat) (v : α)
    (h : t.Padding pads v = some t1) : t1.raw_shapes_inv := by
  obtain ⟨hne, top, bottom, left, right, rfl⟩ := Padding_some t t1 pads v h
  obtain ⟨d1, d2, d3, d4, _⟩ := Padding_dims t t1 hne top bottom left right v h
  unfold raw_shapes_inv raw_shapes
  rw [d1, d2, d3, d4]
  refine ⟨?_, fun _ => by simp⟩
  simp only [List.prod_cons, List.prod_nil]
  ring

theorem Flatten_inv [Zero α] (t t1 : Tensor α) (h : t.Flatten = some t1) :
    t1.raw_shapes_inv := by
  have hne := Flatten_some t t1 h
  obtain ⟨d1, d2, d3, d4, _⟩ := Flatten_dims t t1 hne h
  unfold raw_shapes_inv raw_shapes
  rw [d1, d2, d3, d4]
  refine ⟨?_, fun _ => by simp⟩
  simp only [List.prod_cons, List.prod_nil]
  ring

theorem ReRawshape_inv [Zero α] (t t1 : Tensor α) (shapes : List Nat)
    (h : t.ReRawshape shapes = some t1) : t1.raw_shapes_inv := by
  obtain ⟨_, hs, hlen, _⟩ := ReRawshape_some t t1 shapes h
  obtain ⟨e3, e2, e1⟩ := ReRawshape_dims t t1 shapes h
  have hraw := ReRawshape_raw t t1 shapes h
  unfold raw_shapes_inv raw_shapes
  rw [hraw]
  refine ⟨?_, fun _ => hs⟩
  match shapes, hs, hlen, e3, e2, e1 with
  | [s0], _, _, _, _, e1 =>
    obtain ⟨a, b, c⟩ := e1 s0 rfl
    rw [a, b, c]; simp
  | [s0, s1], _, _, _, e2, _ =>
    obtain ⟨a, b, c⟩ := e2 s0 s1 rfl
    rw [a, b, c]; simp
  | [s0, s1, s2], _, _, e3, _, _ =>
    obtain ⟨a, b, c⟩ := e3 s0 s1 s2 rfl
    rw [a, b, c]; simp only [List.prod_cons, List.prod_nil]; ring
  | _ :: _ :: _ :: _ :: _, _, hlen, _, _, _ => simp at hlen

theorem ElementAdd_inv [Zero α] [Add α] (a b t1 : Tensor α)
    (h : ElementAdd a b = some t1) : t1.raw_shapes_inv := by
  obtain ⟨_, _, _, e⟩ := ElementAdd_some a b t1 h
  subst e
  exact inv_of_same (Tensor.new a.data_.n_slices a.data_.n_rows a.data_.n_cols) _
    (new_inv _ _ _) ⟨rfl, rfl, rfl, rfl⟩

theorem ElementMultiply_inv [Zero α] [Mul α] (a b t1 : Tensor α)
    (h : ElementMultiply a b = some t1) : t1.raw_shapes_inv := by
  obtain ⟨_, _, _, e⟩ := ElementMultiply_some a b t1 h
  subst e
  exact inv_of_same (Tensor.new a.data_.n_slices a.data_.n_rows a.data_.n_cols) _
    (new_inv _ _ _) ⟨rfl, rfl, rfl, rfl⟩

/-- The value of `at(c, r, k)` in all cases: the element when the tensor is non-empty and
the position is in range, the abort otherwise. -/
theorem at_eq_ite (t : Tensor α) (c r k : Nat) :
    t.at_ c r k
      = if t.data_.empty = false ∧ r < t.data_.n_rows ∧ k < t.data_.n_cols ∧
          c < t.data_.n_slices
        then some (t.data_.mem
          (c * (t.data_.n_rows * t.data_.n_cols) + k * t.data_.n_rows + r))
        else none := by
  cases he : t.data_.empty
  · by_cases hr : r < t.data_.n_rows
    · by_cases hk : k < t.data_.n_cols
      · by_cases hc : c < t.data_.n_slices
        · simp [at_, rows, cols, channels, he, hr, hk, hc, Cube.at3, Cube.offset]
        · simp [at_, rows, cols, channels, he, hr, hk, hc]
      · simp [at_, rows, cols, channels, he, hr, hk]
    · simp [at_, rows, cols, channels, he, hr]
  · simp [at_, rows, he]

/-- Two tensors of equal dimensions whose buffers agree below the element count have the
same `at(c, r, k)` everywhere. -/
theorem at_congr (t t1 : Tensor α) (h1 : t1.data_.n_rows = t.data_.n_rows)
    (h2 : t1.data_.n_cols = t.data_.n_cols) (h3 : t1.data_.n_slices = t.data_.n_slices)
    (hm : ∀ i, i < t.data_.n_rows * t.data_.n_cols * t.data_.n_slices →
      t1.data_.mem i = t.data_.mem i) (c r k : Nat) :
    t1.at_ c r k = t.at_ c r k := by
  have he : t1.data_.empty = t.data_.empty := by
    simp only [Cube.empty, Cube.n_elem, h1, h2, h3]
  rw [at_eq_ite, at_eq_ite, he, h1, h2, h3]
  by_cases hin : t.data_.empty = false ∧ r < t.data_.n_rows ∧ k < t.data_.n_cols ∧
      c < t.data_.n_slices
  · rw [if_pos hin, if_pos hin, hm]
    have := offset_lt_col c r k _ _ _ hin.2.2.2 hin.2.1 hin.2.2.1
    calc c * (t.data_.n_rows * t.data_.n_cols) + k * t.data_.n_rows + r
        < t.data_.n_slices * (t.data_.n_rows * t.data_.n_cols) := this
      _ = t.data_.n_rows * t.data_.n_cols * t.data_.n_slices := by ring
  · rw [if_neg hin, if_neg hin]

/-- Elements of the result of `ElementAdd`. -/
theorem ElementAdd_at [Zero α] [Add α] (a b t1 : Tensor α) (h : ElementAdd a b = some t1)
    (c r k : Nat) (va vb : α) (ha : a.at_ c r k = some va) (hb : b.at_ c r k = some vb) :
    t1.at_ c r k = some (va + vb) := by
  obtain ⟨ea, eb, hs, e⟩ := ElementAdd_some a b t1 h
  obtain ⟨e1, e2, e3⟩ := shapes_eq_dims a b ea eb hs
  subst e
  rw [at_eq_ite] at ha hb ⊢
  rw [← e1, ← e2, ← e3] at hb
  have hea : a.data_.empty = false := ea
  have heb : b.data_.empty = false := eb
  have het : (a.data_.add b.data_).empty = false := hea
  by_cases hin : r < a.data_.n_rows ∧ k < a.data_.n_cols ∧ c < a.data_.n_slices
  · rw [if_pos ⟨hea, hin⟩] at ha
    rw [if_pos ⟨heb, hin⟩] at hb
    have hin2 : (a.data_.add b.data_).empty = false ∧ r < (a.data_.add b.data_).n_rows ∧
        k < (a.data_.add b.data_).n_cols ∧ c < (a.data_.add b.data_).n_slices := ⟨het, hin⟩
    rw [if_pos hin2, ← Option.some.inj ha, ← Option.some.inj hb]
    rfl
  · rw [if_neg (fun x => hin x.2)] at ha
    exact absurd ha (by simp)

/-- Elements of the result of `ElementMultiply`. -/
theorem ElementMultiply_at [Zero α] [Mul α] (a b t1 : Tensor α)
    (h : ElementMultiply a b = some t1)
    (c r k : Nat) (va vb : α) (ha : a.at_ c r k = some va) (hb : b.at_ c r k = some vb) :
    t1.at_ c r k = some (va * vb) := by
  obtain ⟨ea, eb, hs, e⟩ := ElementMultiply_some a b t1 h
  obtain ⟨e1, e2, e3⟩ := shapes_eq_dims a b ea eb hs
  subst e
  rw [at_eq_ite] at ha hb ⊢
  rw [← e1, ← e2, ← e3] at hb
  have hea : a.data_.empty = false := ea
  have heb : b.data_.empty = false := eb
  have het : (a.data_.schur b.data_).empty = false := hea
  by_cases hin : r < a.data_.n_rows ∧ k < a.data_.n_cols ∧ c < a.data_.n_slices
  · rw [if_pos ⟨hea, hin⟩] at ha
    rw [if_pos ⟨heb, hin⟩] at hb
    have hin2 : (a.data_.schur b.data_).empty = false ∧ r < (a.data_.schur b.data_).n_rows ∧
        k < (a.data_.schur b.data_).n_cols ∧ c < (a.data_.schur b.data_).n_slices :=
      ⟨het, hin⟩
    rw [if_pos hin2, ← Option.some.inj ha, ← Option.some.inj hb]
    rfl
  · rw [if_neg (fun x => hin x.2)] at ha
    exact absurd ha (by simp)

/-- The result of `ElementAdd` has the `shapes()` of its first operand. -/
theorem ElementAdd_shapes [Zero α] [Add α] (a b t1 : Tensor α)
    (h : ElementAdd a b = some t1) : t1.shapes = a.shapes := by
  obtain ⟨ea, _, _, e⟩ := ElementAdd_some a b t1 h
  subst e
  have het : Tensor.empty (⟨a.data_.add b.data_,
      (Tensor.new a.data_.n_slices a.data_.n_rows a.data_.n_cols : Tensor α).raw_shapes_⟩
        : Tensor α) = false := ea
  rw [shapes_eq _ het, shapes_eq a ea]
  rfl

/-- The result of `ElementMultiply` has the `shapes()` of its first operand. -/
theorem ElementMultiply_shapes [Zero α] [Mul α] (a b t1 : Tensor α)
    (h : ElementMultiply a b = some t1) : t1.shapes = a.shapes := by
  obtain ⟨ea, _, _, e⟩ := ElementMultiply_some a b t1 h
  subst e
  have het : Tensor.empty (⟨a.data_.schur b.data_,
      (Tensor.new a.data_.n_slices a.data_.n_rows a.data_.n_cols : Tensor α).raw_shapes_⟩
        : Tensor α) = false := ea
  rw [shapes_eq _ het, shapes_eq a ea]
  rfl

theorem empty_false_of_shapes (t : Tensor α) (l : List Nat) (h : t.shapes = some l) :
    t.empty = false := by
  cases he : t.data_.empty
  · exact he
  · simp [shapes, he] at h

end Tensor

namespace SiLULayer

theorem ok_bind {ε β γ : Type} (a : β) (f : β → Except ε γ) :
    (Except.ok a >>= f) = f a := rfl

theorem error_bind {ε β γ : Type} (e : ε) (f : β → Except ε γ) :
    ((Except.error e : Except ε β) >>= f) = Except.error e := rfl

/-- The body of the loop of `Forward` at an index that both vectors have. -/
theorem body_eq [DivisionRing α] (exp : α → α) (inputs outputs : List (Option (Tensor α)))
    (i : Nat) (input output : Option (Tensor α))
    (hi : inputs[i]? = some input) (ho : outputs[i]? = some output) :
    (do
        let input ← vector_at inputs i
        match input with
        | none => pure ()
        | some t => fatal (CHECK (!t.empty))
        let output ← vector_at outputs i
        let output ←
          if (match output with
              | none => true
              | some o => o.empty) then do
            let inp ← deref input
            pure (some (Tensor.new (← fatal inp.channels) (← fatal inp.rows)
              (← fatal inp.cols)))
          else pure output
        let out ← deref output
        let inp ← deref input
        let out_shapes ← fatal out.shapes
        let in_shapes ← fatal inp.shapes
        fatal (CHECK (out_shapes == in_shapes))
        let out ← fatal (out.set_data inp.data)
        let output_data_cube := out.data
        let out : Tensor α :=
          { out with data_ :=
              output_data_cube.div ((output_data_cube.neg.exp exp).scalar_add 1) }
        pure (outputs.set i (some out)) : Except Abort (List (Option (Tensor α))))
      = (fun out => outputs.set i (some out)) <$> item exp input output := by
  rcases input with _ | t
  · simp only [vector_at, hi, ho, item, silu_cube, map_bind, map_pure, bind_assoc, pure_bind,
      apply_ite (Functor.map _), ok_bind]
  · simp only [vector_at, hi, ho, item, silu_cube, map_bind, map_pure, bind_assoc, pure_bind,
      apply_ite (Functor.map _), ok_bind]

end SiLULayer

namespace Tensor

theorem set_data_eq (t : Tensor α) (d : Cube α) (h1 : d.n_rows = t.data_.n_rows)
    (h2 : d.n_cols = t.data_.n_cols) (h3 : d.n_slices = t.data_.n_slices) :
    t.set_data d = some { data_ := d, raw_shapes_ := t.raw_shapes_ } := by
  simp [set_data, h1, h2, h3]

end Tensor

namespace SiLULayer

/-- A null input handle is dereferenced, whatever the output slot holds. -/
theorem item_null [DivisionRing α] (exp : α → α) (output : Option (Tensor α)) :
    item exp none output = .error .null_dereference := by
  rcases output with _ | o
  · rfl
  · cases h : o.data_.empty
    · have h2 : o.empty = false := h
      simp only [item, h2, deref, pure_bind, Bool.false_eq_true, if_false, ok_bind]
      rfl
    · have h2 : o.empty = true := h
      simp only [item, h2, deref, pure_bind, if_true]
      rfl

/-- With a non-empty input and a null or empty output slot, a fresh tensor is made and
receives the transformed buffer. -/
theorem item_fresh [DivisionRing α] (exp : α → α) (t_in : Tensor α)
    (output : Option (Tensor α)) (hin : t_in.empty = false)
    (hout : output = none ∨ ∃ o, output = some o ∧ o.empty = true) :
    item exp (some t_in) output = .ok
      { data_ := silu_cube exp t_in.data_,
        raw_shapes_ := (Tensor.new t_in.data_.n_slices t_in.data_.n_rows t_in.data_.n_cols
          : Tensor α).raw_shapes_ } := by
  obtain ⟨pR, pK, pC⟩ := Tensor.empty_false_dims t_in hin
  have hnew : (Tensor.new t_in.data_.n_slices t_in.data_.n_rows t_in.data_.n_cols
      : Tensor α).empty = false := (Cube.empty_eq_false_iff _).2 ⟨pR, pK, pC⟩
  have hs : (Tensor.new t_in.data_.n_slices t_in.data_.n_rows t_in.data_.n_cols
      : Tensor α).shapes = t_in.shapes := by
    rw [Tensor.shapes_eq _ hnew, Tensor.shapes_eq _ hin]; rfl
  have hsd := Tensor.set_data_eq
    (Tensor.new t_in.data_.n_slices t_in.data_.n_rows t_in.data_.n_cols : Tensor α)
    t_in.data_ rfl rfl rfl
  rcases hout with rfl | ⟨o, rfl, ho⟩
  · simp only [item, hin, deref, fatal, Tensor.channels_eq t_in hin, Tensor.rows_eq t_in hin,
      Tensor.cols_eq t_in hin, hs, Tensor.shapes_eq t_in hin, Bool.not_false, CHECK_true,
      pure_bind, ok_bind, if_true, beq_self_eq_true, Tensor.data, hsd]
    rfl
  · simp only [item, hin, ho, deref, fatal, Tensor.channels_eq t_in hin,
      Tensor.rows_eq t_in hin, Tensor.cols_eq t_in hin, hs, Tensor.shapes_eq t_in hin,
      Bool.not_false, CHECK_true, pure_bind, ok_bind, if_true, beq_self_eq_true, Tensor.data,
      hsd]
    rfl

/-- With a non-empty input and a non-empty output of the same `shapes()`, the output
tensor receives the transformed buffer and keeps its shape record. -/
theorem item_reuse [DivisionRing α] (exp : α → α) (t_in t_out : Tensor α)
    (hin : t_in.empty = false) (hout : t_out.empty = false)
    (hs : t_out.shapes = t_in.shapes) :
    item exp (some t_in) (some t_out) = .ok
      { data_ := silu_cube exp t_in.data_, raw_shapes_ := t_out.raw_shapes_ } := by
  obtain ⟨e1, e2, e3⟩ := Tensor.shapes_eq_dims t_out t_in hout hin hs
  simp only [item, hin, hout, deref, fatal, hs, Tensor.shapes_eq t_in hin, Bool.not_false,
    CHECK_true, pure_bind, ok_bind, Bool.false_eq_true, if_false, beq_self_eq_true,
    Tensor.data, Tensor.set_data_eq t_out t_in.data_ e2.symm e3.symm e1.symm]
  rfl

/-- With a non-empty input and a non-empty output of another `shapes()`, the shape check
aborts. -/
theorem item_mismatch [DivisionRing α] (exp : α → α) (t_in t_out : Tensor α)
    (hin : t_in.empty = false) (hout : t_out.empty = false)
    (hs : t_out.shapes ≠ t_in.shapes) :
    item exp (some t_in) (some t_out) = .error .check_failed := by
  rw [Tensor.shapes_eq t_in hin, Tensor.shapes_eq t_out hout] at hs
  have hb : ([t_out.data_.n_slices, t_out.data_.n_rows, t_out.data_.n_cols]
      == [t_in.data_.n_slices, t_in.data_.n_rows, t_in.data_.n_cols]) = false :=
    beq_eq_false_iff_ne.2 (fun e => hs (by rw [e]))
  simp only [item, hin, hout, deref, fatal, Tensor.shapes_eq t_in hin,
    Tensor.shapes_eq t_out hout, Bool.not_false, CHECK_true, CHECK_false, pure_bind, ok_bind,
    Bool.false_eq_true, if_false, hb]
  rfl

end SiLULayer

namespace SiLULayer

theorem getElem?_getD {β : Type} (l : List β) (i : Nat) (d : β) (h : i < l.length) :
    l[i]? = some (l.getD i d) := by
  rw [List.getD_eq_getElem _ _ h, List.getElem?_eq_getElem h]

/-- The loop of `Forward` run in index order: either every iteration up to `n` succeeds
and slot `i` holds the tensor made from `inputs[i]` and the old `outputs[i]`, or the run
stops at the first iteration that aborts. -/
theorem fold_spec [DivisionRing α] (exp : α → α) (inputs : List (Option (Tensor α)))
    (step : List (Option (Tensor α)) → Nat → Except Abort (List (Option (Tensor α))))
    (hstep : ∀ outs i input output, inputs[i]? = some input → outs[i]? = some output →
      step outs i = (fun out => outs.set i (some out)) <$> item exp input output)
    (outs0 : List (Option (Tensor α))) (hlen : inputs.length = outs0.length)
    (n : Nat) (hn : n ≤ inputs.length) :
    (∃ outs, (List.range n).foldlM step outs0 = .ok outs ∧ outs.length = outs0.length ∧
      (∀ i, i < n → ∃ out, item exp (inputs.getD i none) (outs0.getD i none) = .ok out ∧
        outs[i]? = some (some out)) ∧
      (∀ i, n ≤ i → outs[i]? = outs0[i]?)) ∨
    (∃ i e, i < n ∧ item exp (inputs.getD i none) (outs0.getD i none) = .error e ∧
      (List.range n).foldlM step outs0 = .error e ∧
      ∀ j, j < i → ∃ out, item exp (inputs.getD j none) (outs0.getD j none) = .ok out) := by
  induction n with
  | zero =>
    left
    exact ⟨outs0, rfl, rfl, fun i hi => absurd hi (Nat.not_lt_zero i), fun _ _ => rfl⟩
  | succ n ih =>
    rcases ih (by omega) with ⟨outs, hf, hl, hdone, hrest⟩ | ⟨i, e, hi, hie, hf, hbefore⟩
    · have hn1 : n < inputs.length := by omega
      have hn2 : n < outs.length := by omega
      have hn3 : n < outs0.length := by omega
      have hin := getElem?_getD inputs n none hn1
      have hout : outs[n]? = some (outs0.getD n none) := by
        rw [hrest n (Nat.le_refl n)]; exact getElem?_getD outs0 n none hn3
      have hs := hstep outs n _ _ hin hout
      have htot : (List.range (n + 1)).foldlM step outs0 = step outs n := by
        rw [List.range_succ, List.foldlM_append, hf]
        simp only [List.foldlM_cons, List.foldlM_nil, bind_pure, ok_bind]
      cases hit : item exp (inputs.getD n none) (outs0.getD n none) with
      | error e =>
        right
        refine ⟨n, e, Nat.lt_succ_self n, hit, ?_, ?_⟩
        · rw [htot, hs, hit]; rfl
        · intro j hj
          obtain ⟨out, ho, _⟩ := hdone j hj
          exact ⟨out, ho⟩
      | ok out =>
        left
        refine ⟨outs.set n (some out), ?_, ?_, ?_, ?_⟩
        · rw [htot, hs, hit]; rfl
        · rw [List.length_set, hl]
        · intro i hi
          by_cases hin' : i = n
          · subst hin'
            exact ⟨out, hit, List.getElem?_set_self hn2⟩
          · obtain ⟨o, ho, hg⟩ := hdone i (by omega)
            exact ⟨o, ho, by rw [List.getElem?_set_ne (fun h => hin' h.symm)]; exact hg⟩
        · intro i hi
          rw [List.getElem?_set_ne (by omega)]
          exact hrest i (by omega)
    · right
      refine ⟨i, e, by omega, hie, ?_, hbefore⟩
      rw [List.range_succ, List.foldlM_append, hf]
      rfl

end SiLULayer

namespace SiLULayer

/-- `Forward` on a non-empty batch with as many outputs as inputs: either it returns
success with every slot `i` holding the tensor made from `inputs[i]` and the old
`outputs[i]`, or it stops at the first index whose iteration aborts. -/
theorem Forward_spec [DivisionRing α] (exp : α → α)
    (inputs outputs : List (Option (Tensor α))) (hne : inputs ≠ [])
    (hlen : inputs.length = outputs.length) :
    (∃ outs, Forward exp inputs outputs = .ok (InferStatus.kInferSuccess, outs) ∧
      outs.length = outputs.length ∧
      ∀ i, i < inputs.length →
        ∃ out, item exp (inputs.getD i none) (outputs.getD i none) = .ok out ∧
          outs[i]? = some (some out)) ∨
    (∃ i e, i < inputs.length ∧
      item exp (inputs.getD i none) (outputs.getD i none) = .error e ∧
      Forward exp inputs outputs = .error e ∧
      ∀ j, j < i → ∃ out, item exp (inputs.getD j none) (outputs.getD j none) = .ok out) := by
  have key : ∀ (step : List (Option (Tensor α)) → Nat →
        Except Abort (List (Option (Tensor α)))),
      (∀ outs i input output, inputs[i]? = some input → outs[i]? = some output →
        step outs i = (fun out => outs.set i (some out)) <$> item exp input output) →
      ((∃ outs, ((List.range inputs.length).foldlM step outputs >>= fun outs =>
            (pure (InferStatus.kInferSuccess, outs)
              : Except Abort (InferStatus × List (Option (Tensor α)))))
          = .ok (InferStatus.kInferSuccess, outs) ∧
        outs.length = outputs.length ∧
        ∀ i, i < inputs.length →
          ∃ out, item exp (inputs.getD i none) (outputs.getD i none) = .ok out ∧
            outs[i]? = some (some out)) ∨
      (∃ i e, i < inputs.length ∧
        item exp (inputs.getD i none) (outputs.getD i none) = .error e ∧
        ((List.range inputs.length).foldlM step outputs >>= fun outs =>
            (pure (InferStatus.kInferSuccess, outs)
              : Except Abort (InferStatus × List (Option (Tensor α)))))
          = .error e ∧
        ∀ j, j < i →
          ∃ out, item exp (inputs.getD j none) (outputs.getD j none) = .ok out)) := by
    intro step hstep
    rcases fold_spec exp inputs step hstep outputs hlen inputs.length (Nat.le_refl _) with
      ⟨outs, hf, hl, hdone, _⟩ | ⟨i, e, hi, hie, hf, hbefore⟩
    · left
      exact ⟨outs, by rw [hf]; rfl, hl, hdone⟩
    · right
      exact ⟨i, e, hi, hie, by rw [hf]; rfl, hbefore⟩
  have h1 : inputs.isEmpty = false := by
    cases inputs with
    | nil => exact absurd rfl hne
    | cons a l => rfl
  have h2 : (inputs.length != outputs.length) = false := by
    rw [hlen]; simp
  unfold Forward
  simp only [h1, h2, Bool.false_eq_true, if_false]
  exact key _ (fun outs i input output hi ho => body_eq exp inputs outs i input output hi ho)

end SiLULayer

namespace SiLULayer

/-- For a non-empty input, one iteration either aborts at the shape check, exactly when
the output slot holds a non-empty tensor of another `shapes()`, or stores the transformed
input buffer. -/
theorem item_valid [DivisionRing α] (exp : α → α) (t_in : Tensor α)
    (output : Option (Tensor α)) (hin : t_in.empty = false) :
    (item exp (some t_in) output = .error .check_failed ∧
      ∃ t_out, output = some t_out ∧ t_out.empty = false ∧ t_out.shapes ≠ t_in.shapes) ∨
    ((∃ raw, item exp (some t_in) output
        = .ok { data_ := silu_cube exp t_in.data_, raw_shapes_ := raw }) ∧
      ¬ ∃ t_out, output = some t_out ∧ t_out.empty = false ∧ t_out.shapes ≠ t_in.shapes) := by
  rcases output with _ | t_out
  · right
    exact ⟨⟨_, item_fresh exp t_in none hin (Or.inl rfl)⟩, by simp⟩
  · cases he : t_out.empty
    · by_cases hs : t_out.shapes = t_in.shapes
      · right
        refine ⟨⟨_, item_reuse exp t_in t_out hin he hs⟩, ?_⟩
        rintro ⟨t, e, _, hne⟩
        cases e
        exact hne hs
      · left
        exact ⟨item_mismatch exp t_in t_out hin he hs, t_out, rfl, he, hs⟩
    · right
      refine ⟨⟨_, item_fresh exp t_in (some t_out) hin (Or.inr ⟨t_out, rfl, he⟩)⟩, ?_⟩
      rintro ⟨t, e, hne, _⟩
      cases e
      rw [he] at hne
      exact absurd hne (by simp)

/-- Shape and elements of a tensor that holds the transformed buffer of `t_in`. -/
theorem silu_tensor [DivisionRing α] (exp : α → α) (t_in : Tensor α) (raw : List Nat)
    (hin : t_in.empty = false) :
    (⟨silu_cube exp t_in.data_, raw⟩ : Tensor α).shapes = t_in.shapes ∧
    ∀ c r k x, t_in.at_ c r k = some x →
      (⟨silu_cube exp t_in.data_, raw⟩ : Tensor α).at_ c r k = some (x / (1 + exp (-x))) := by
  have he : (⟨silu_cube exp t_in.data_, raw⟩ : Tensor α).empty = false := hin
  refine ⟨by rw [Tensor.shapes_eq _ he, Tensor.shapes_eq _ hin]; rfl, ?_⟩
  intro c r k x hx
  rw [Tensor.at_eq_ite] at hx ⊢
  by_cases hr : t_in.data_.empty = false ∧ r < t_in.data_.n_rows ∧ k < t_in.data_.n_cols ∧
      c < t_in.data_.n_slices
  · rw [if_pos hr] at hx
    have hr2 : (silu_cube exp t_in.data_).empty = false ∧
        r < (silu_cube exp t_in.data_).n_rows ∧ k < (silu_cube exp t_in.data_).n_cols ∧
        c < (silu_cube exp t_in.data_).n_slices := hr
    rw [if_pos hr2, ← Option.some.inj hx]
    rfl
  · rw [if_neg hr] at hx
    exact absurd hx (by simp)

end SiLULayer

namespace SiLULayer

/-- A one-item batch holding a non-empty tensor is a batch of non-null, non-empty
inputs. -/
theorem singleton_valid (t : Tensor α) (ht : t.empty = false) (i : Nat)
    (h : Option (Tensor α)) (hi : [some t][i]? = some h) :
    ∃ t1, h = some t1 ∧ t1.empty = false := by
  cases i with
  | zero =>
    have e : some t = h := Option.some.inj hi
    exact ⟨t, e.symm, ht⟩
  | succ j => exact absurd hi (by simp)

end SiLULayer

/-! ## Properties of the specification -/

/-- C1 as stated fails: on the 1 x 2 x 3 tensor filled with `0, ..., 5`, `index(1)` is
`3` before and `1` after `Flatten()` followed by `ReRawshape([1, 2, 3])`. -/
theorem C1_roundtrip_counterexample :
    (tensor_1x2x3.bind fun t => t.index 1) = some 3 ∧
    (tensor_1x2x3.bind fun t => (Flatten_ReRawshape t [1, 2, 3]).bind fun t2 => t2.index 1)
      = some 1 ∧
    (tensor_1x2x3.bind fun t => (Flatten_ReRawshape t [1, 2, 3]).bind fun t2 => t2.index 1)
      ≠ (tensor_1x2x3.bind fun t => t.index 1) := by
  decide

/-- C1, amended. For every tensor `t` with dimensions `(C, R, K)`, all at least 1,
`Flatten()` followed by `ReRawshape([C, R, K])` succeeds and yields a tensor whose
`shapes()` is `[C, R, K]` and whose `index(c * R * K + r * K + k)` is the original
`t.at(c, r, k)`, that is the original `t.index(c * R * K + k * R + r)`, for every in-range
`(c, r, k)`; when `R = 1` or `K = 1`, `index(offset)` equals the original
`t.index(offset)` for every `offset < C * R * K`. -/
theorem C1_roundtrip_amended [Zero α] (t : Tensor α) (C R K : Nat)
    (hC : t.channels = some C) (hR : t.rows = some R) (hK : t.cols = some K) :
    ∃ t2, Flatten_ReRawshape t [C, R, K] = some t2 ∧
      t2.shapes = some [C, R, K] ∧
      (∀ c r k, c < C → r < R → k < K →
        ∃ v, t.at_ c r k = some v ∧ t.index (c * R * K + k * R + r) = some v ∧
          t2.index (c * R * K + r * K + k) = some v) ∧
      ((R = 1 ∨ K = 1) → ∀ offset, offset < C * R * K →
        ∃ v, t.index offset = some v ∧ t2.index offset = some v) := by
  obtain ⟨hne, rfl, rfl, rfl⟩ := Tensor.of_accessors t C R K hC hR hK
  obtain ⟨pR, pK, pC⟩ := Tensor.empty_false_dims t hne
  obtain ⟨t1, h1⟩ : ∃ t1, t.Flatten = some t1 := ⟨_, Tensor.Flatten_eq t hne⟩
  obtain ⟨d1, d2, d3, _, d5⟩ := Tensor.Flatten_dims t t1 hne h1
  have hprod : u32 [t.data_.n_slices, t.data_.n_rows, t.data_.n_cols].prod
      = u32 (t1.data_.n_rows * t1.data_.n_cols * t1.data_.n_slices) := by
    rw [d1, d2, d3]
    congr 1
    simp only [List.prod_cons, List.prod_nil]
    ring
  obtain ⟨t2, h2⟩ : ∃ t2, t1.ReRawshape [t.data_.n_slices, t.data_.n_rows, t.data_.n_cols]
      = some t2 := ⟨_, Tensor.ReRawshape_eq t1 _ d5 (by simp) (by simp) hprod⟩
  have h12 : Flatten_ReRawshape t [t.data_.n_slices, t.data_.n_rows, t.data_.n_cols]
      = some t2 := by
    simp only [Flatten_ReRawshape, h1, Option.bind_eq_bind, Option.some_bind]
    exact h2
  obtain ⟨e3, _, _⟩ := Tensor.ReRawshape_dims t1 t2 _ h2
  obtain ⟨r1, r2, r3⟩ := e3 _ _ _ rfl
  have hmem := Tensor.ReRawshape_mem t1 t2 _ h2
  rw [d1, d2, d3] at hmem
  have e : t.data_.n_slices * (t.data_.n_rows * t.data_.n_cols)
      = t.data_.n_rows * t.data_.n_cols * t.data_.n_slices := by ring
  have key : ∀ c r k, c < t.data_.n_slices → r < t.data_.n_rows → k < t.data_.n_cols →
      ∃ v, t.at_ c r k = some v ∧
        t.index (c * t.data_.n_rows * t.data_.n_cols + k * t.data_.n_rows + r) = some v ∧
        t2.index (c * t.data_.n_rows * t.data_.n_cols + r * t.data_.n_cols + k)
          = some v := by
    intro c r k hc hr hk
    have hlt := Tensor.offset_lt c r k _ _ _ hc hr hk
    have hlt2 := Tensor.offset_lt_col c r k _ _ _ hc hr hk
    refine ⟨_, Tensor.at_eq t c r k hc hr hk, ?_, ?_⟩
    · rw [Nat.mul_assoc, Tensor.index_eq t _ (by rw [← e]; exact hlt2)]
    · rw [Nat.mul_assoc, Tensor.index_eq t2 _ (by rw [r1, r2, r3, ← e]; exact hlt),
        hmem _ (by rw [Nat.mul_one, Nat.mul_one, ← e]; exact hlt),
        Tensor.Flatten_mem t t1 hne h1 c r k hc hr hk]
  refine ⟨t2, h12, ?_, key, ?_⟩
  · rw [Tensor.shapes_eq t2 ((Cube.empty_eq_false_iff _).2
      ⟨by rw [r1]; exact pR, by rw [r2]; exact pK, by rw [r3]; exact pC⟩), r1, r2, r3]
  · intro h offset hoff
    have hoff2 : offset < t.data_.n_slices * (t.data_.n_rows * t.data_.n_cols) := by
      rw [← Nat.mul_assoc]; exact hoff
    obtain ⟨c, r, k, hc, hr, hk, e⟩ := Tensor.offset_split offset _ _ _ hoff2
    obtain ⟨v, _, a, b⟩ := key c r k hc hr hk
    refine ⟨v, ?_, ?_⟩
    · rw [← a, e, Nat.mul_assoc]
      rcases h with h | h
      · have : r = 0 := by omega
        subst this
        rw [h]
        simp
      · have : k = 0 := by omega
        subst this
        rw [h]
        simp
    · rw [← b, e, Nat.mul_assoc]

/-- C1 amended, at `Tensor(1, 2, 3)`. -/
theorem C1_roundtrip_amended_witness :
    ∃ t2, Flatten_ReRawshape (Tensor.new 1 2 3 : Tensor Int) [1, 2, 3] = some t2 ∧
      t2.shapes = some [1, 2, 3] ∧
      (∀ c r k, c < 1 → r < 2 → k < 3 →
        ∃ v, (Tensor.new 1 2 3 : Tensor Int).at_ c r k = some v ∧
          (Tensor.new 1 2 3 : Tensor Int).index (c * 2 * 3 + k * 2 + r) = some v ∧
          t2.index (c * 2 * 3 + r * 3 + k) = some v) ∧
      (((2 : Nat) = 1 ∨ (3 : Nat) = 1) → ∀ offset, offset < 1 * 2 * 3 →
        ∃ v, (Tensor.new 1 2 3 : Tensor Int).index offset = some v ∧
          t2.index offset = some v) :=
  C1_roundtrip_amended _ 1 2 3 (by decide) (by decide) (by decide)

/-- C2. For every non-empty tensor with dimensions `(C, R, K)` and every sequence
`values` of length `C * R * K`, `Fill(values)` succeeds, leaves the dimensions unchanged,
and afterwards `at(c, r, k)` is `values[c * R * K + r * K + k]` for every in-range
`(c, r, k)`. -/
theorem C2_Fill_values_row_major [Zero α] (t : Tensor α) (values : List α) (C R K : Nat)
    (hC : t.channels = some C) (hR : t.rows = some R) (hK : t.cols = some K)
    (hlen : values.length = C * R * K) :
    ∃ t1, t.Fill_values values = some t1 ∧
      t1.channels = some C ∧ t1.rows = some R ∧ t1.cols = some K ∧
      ∀ c r k, c < C → r < R → k < K →
        ∃ v, values[c * R * K + r * K + k]? = some v ∧ t1.at_ c r k = some v := by
  obtain ⟨hne, rfl, rfl, rfl⟩ := Tensor.of_accessors t C R K hC hR hK
  have hlen2 : values.length = t.data_.n_rows * t.data_.n_cols * t.data_.n_slices := by
    rw [hlen]; ring
  have h1 := Tensor.Fill_values_eq t values hne hlen2
  have hne1 : Tensor.empty
      (⟨t.data_.write 0 (t.data_.n_slices * (t.data_.n_rows * t.data_.n_cols)) (fun z =>
            (Mat.of_ptr values
              (z / (t.data_.n_rows * t.data_.n_cols) * (t.data_.n_rows * t.data_.n_cols))
              t.data_.n_cols t.data_.n_rows).t.mem (z % (t.data_.n_rows * t.data_.n_cols))),
        t.raw_shapes_⟩ : Tensor α) = false := hne
  refine ⟨_, h1, ?_, ?_, ?_, ?_⟩
  · rw [Tensor.channels_eq _ hne1]; rfl
  · rw [Tensor.rows_eq _ hne1]; rfl
  · rw [Tensor.cols_eq _ hne1]; rfl
  · intro c r k hc hr hk
    obtain ⟨t1, e1, d1, d2, d3, _, hm⟩ := Tensor.Fill_values_mem t values hne hlen2 c r k hc hr hk
    rw [h1] at e1
    have e := Option.some.inj e1
    have hlt : c * t.data_.n_rows * t.data_.n_cols + r * t.data_.n_cols + k < values.length := by
      rw [hlen, Nat.mul_assoc, Nat.mul_assoc]
      exact Tensor.offset_lt c r k _ _ _ hc hr hk
    refine ⟨values[c * t.data_.n_rows * t.data_.n_cols + r * t.data_.n_cols + k],
      List.getElem?_eq_getElem hlt, ?_⟩
    rw [e, Tensor.at_eq t1 c r k (by rw [d3]; exact hc) (by rw [d1]; exact hr)
      (by rw [d2]; exact hk), d1, d2, hm, ← Nat.mul_assoc, List.getD_eq_getElem _ _ hlt]

/-- C2, at `Tensor(1, 2, 3)` filled from `[0, 1, 2, 3, 4, 5]`. -/
theorem C2_Fill_values_row_major_witness :
    ∃ t1, (Tensor.new 1 2 3 : Tensor Int).Fill_values [0, 1, 2, 3, 4, 5] = some t1 ∧
      t1.channels = some 1 ∧ t1.rows = some 2 ∧ t1.cols = some 3 ∧
      ∀ c r k, c < 1 → r < 2 → k < 3 →
        ∃ v, [(0 : Int), 1, 2, 3, 4, 5][c * 2 * 3 + r * 3 + k]? = some v ∧
          t1.at_ c r k = some v :=
  C2_Fill_values_row_major _ _ 1 2 3 (by decide) (by decide) (by decide) (by decide)

/-- C4. For every non-empty tensor with dimensions `(C, R, K)`, `Flatten()` succeeds and
afterwards `size()` is `C * R * K`, `raw_shapes()` is `[C * R * K]`, and
`index(c * R * K + r * K + k)` is the value `at(c, r, k)` had before the call, for every
in-range `(c, r, k)`. -/
theorem C4_Flatten_order [Zero α] (t : Tensor α) (C R K : Nat)
    (hC : t.channels = some C) (hR : t.rows = some R) (hK : t.cols = some K) :
    ∃ t1, t.Flatten = some t1 ∧
      t1.size = some (C * R * K) ∧
      t1.raw_shapes = [C * R * K] ∧
      ∀ c r k, c < C → r < R → k < K →
        ∃ v, t.at_ c r k = some v ∧ t1.index (c * R * K + r * K + k) = some v := by
  obtain ⟨hne, rfl, rfl, rfl⟩ := Tensor.of_accessors t C R K hC hR hK
  have h1 := Tensor.Flatten_eq t hne
  obtain ⟨d1, d2, d3, d4, d5⟩ := Tensor.Flatten_dims t _ hne h1
  refine ⟨_, h1, ?_, ?_, ?_⟩
  · rw [Tensor.size_eq _ d5, d1, d2, d3]
    congr 1; ring
  · rw [Tensor.raw_shapes, d4]
    congr 1; ring
  · intro c r k hc hr hk
    refine ⟨_, Tensor.at_eq t c r k hc hr hk, ?_⟩
    have hlt := Tensor.offset_lt c r k _ _ _ hc hr hk
    rw [Nat.mul_assoc, Tensor.index_eq]
    · rw [Tensor.Flatten_mem t _ hne h1 c r k hc hr hk]
    · rw [d1, d2, d3]
      calc c * (t.data_.n_rows * t.data_.n_cols) + r * t.data_.n_cols + k
          < t.data_.n_slices * (t.data_.n_rows * t.data_.n_cols) := hlt
        _ = t.data_.n_rows * t.data_.n_cols * t.data_.n_slices * 1 * 1 := by ring

/-- C4, at the 2 x 2 x 2 tensor filled with `0, ..., 7`. -/
theorem C4_Flatten_order_witness :
    ∃ t1, (⟨⟨2, 2, 2, fun i => (i : Int)⟩, [2, 2, 2]⟩ : Tensor Int).Flatten = some t1 ∧
      t1.size = some (2 * 2 * 2) ∧
      t1.raw_shapes = [2 * 2 * 2] ∧
      ∀ c r k, c < 2 → r < 2 → k < 2 →
        ∃ v, (⟨⟨2, 2, 2, fun i => (i : Int)⟩, [2, 2, 2]⟩ : Tensor Int).at_ c r k = some v ∧
          t1.index (c * 2 * 2 + r * 2 + k) = some v :=
  C4_Flatten_order _ 2 2 2 (by decide) (by decide) (by decide)

/-- C5 as stated fails for a 1-entry list: on a tensor with `size() == 2`,
`ReRawshape([2])` gives `(channels, rows, cols) = (1, 2, 1)`, not `(2, 1, 1)`. -/
theorem C5_single_axis_counterexample :
    tensor_1x1x2.size = some 2 ∧ [2].prod = 2 ∧
    (tensor_1x1x2.ReRawshape [2]).bind Tensor.shapes = some [1, 2, 1] ∧
    (tensor_1x1x2.ReRawshape [2]).bind Tensor.shapes ≠ some [2, 1, 1] := by
  decide

/-- C5, amended. For every non-empty tensor and every shape list `s` of 1 to 3 entries
whose product equals `size()`, `ReRawshape(s)` succeeds and afterwards
`(channels, rows, cols)` is `(s0, s1, s2)` for a 3-entry list, `(1, s0, s1)` for a 2-entry
list and `(1, n, 1)` for a 1-entry list `[n]`; `raw_shapes() == s`; and `index(i)` is
unchanged for every `i < size()`. -/
theorem C5_ReRawshape_amended [Zero α] (t : Tensor α) (s : List Nat) (n : Nat)
    (hsize : t.size = some n) (hlen1 : 1 ≤ s.length) (hlen3 : s.length ≤ 3)
    (hprod : s.prod = n) :
    ∃ t1, t.ReRawshape s = some t1 ∧
      (∀ s0 s1 s2, s = [s0, s1, s2] → t1.shapes = some [s0, s1, s2]) ∧
      (∀ s0 s1, s = [s0, s1] → t1.shapes = some [1, s0, s1]) ∧
      (∀ s0, s = [s0] → t1.shapes = some [1, s0, 1]) ∧
      t1.raw_shapes = s ∧
      ∀ i, i < n → ∃ v, t.index i = some v ∧ t1.index i = some v := by
  have hne : t.empty = false := by
    cases h : t.data_.empty
    · exact h
    · simp [Tensor.size, h] at hsize
  rw [Tensor.size_eq t hne] at hsize
  have hn := Option.some.inj hsize
  obtain ⟨pR, pK, pC⟩ := Tensor.empty_false_dims t hne
  have hpos : 0 < n := by
    rw [← hn]; exact Nat.mul_pos (Nat.mul_pos pR pK) pC
  have hs : s ≠ [] := by
    rintro rfl; simp at hlen1
  obtain ⟨t1, h1⟩ : ∃ t1, t.ReRawshape s = some t1 :=
    ⟨_, Tensor.ReRawshape_eq t s hne hs hlen3 (by rw [hprod, hn])⟩
  obtain ⟨e3, e2, e1⟩ := Tensor.ReRawshape_dims t t1 s h1
  have hmem := Tensor.ReRawshape_mem t t1 s h1
  rw [hn] at hmem
  have hsize1 : t1.data_.n_rows * t1.data_.n_cols * t1.data_.n_slices = n := by
    match s, hs, hlen3, hprod, e3, e2, e1 with
    | [s0], _, _, hprod, _, _, e1 =>
      obtain ⟨a, b, c⟩ := e1 s0 rfl
      rw [a, b, c, ← hprod]; simp
    | [s0, s1], _, _, hprod, _, e2, _ =>
      obtain ⟨a, b, c⟩ := e2 s0 s1 rfl
      rw [a, b, c, ← hprod]; simp
    | [s0, s1, s2], _, _, hprod, e3, _, _ =>
      obtain ⟨a, b, c⟩ := e3 s0 s1 s2 rfl
      rw [a, b, c, ← hprod]; simp only [List.prod_cons, List.prod_nil]; ring
    | _ :: _ :: _ :: _ :: _, _, hlen3, _, _, _, _ => simp at hlen3
  have hne1 : t1.empty = false := by
    apply (Cube.empty_eq_false_iff _).2
    rw [← hsize1] at hpos
    refine ⟨?_, ?_, ?_⟩
    · exact Nat.pos_of_mul_pos_right (Nat.pos_of_mul_pos_right hpos)
    · exact Nat.pos_of_mul_pos_left (Nat.pos_of_mul_pos_right hpos)
    · exact Nat.pos_of_mul_pos_left hpos
  refine ⟨t1, h1, ?_, ?_, ?_, Tensor.ReRawshape_raw t t1 s h1, ?_⟩
  · intro s0 s1 s2 hs0
    obtain ⟨a, b, c⟩ := e3 s0 s1 s2 hs0
    rw [Tensor.shapes_eq t1 hne1, a, b, c]
  · intro s0 s1 hs0
    obtain ⟨a, b, c⟩ := e2 s0 s1 hs0
    rw [Tensor.shapes_eq t1 hne1, a, b, c]
  · intro s0 hs0
    obtain ⟨a, b, c⟩ := e1 s0 hs0
    rw [Tensor.shapes_eq t1 hne1, a, b, c]
  · intro i hi
    refine ⟨_, Tensor.index_eq t i (by rw [hn]; exact hi), ?_⟩
    rw [Tensor.index_eq t1 i (by rw [hsize1]; exact hi), hmem i hi]

/-- C5 amended, at a tensor with `size() == 2` and the list `[2]`. -/
theorem C5_ReRawshape_amended_witness :
    ∃ t1, tensor_1x1x2.ReRawshape [2] = some t1 ∧
      (∀ s0 s1 s2, [2] = [s0, s1, s2] → t1.shapes = some [s0, s1, s2]) ∧
      (∀ s0 s1, [2] = [s0, s1] → t1.shapes = some [1, s0, s1]) ∧
      (∀ s0, [2] = [s0] → t1.shapes = some [1, s0, 1]) ∧
      t1.raw_shapes = [2] ∧
      ∀ i, i < 2 → ∃ v, tensor_1x1x2.index i = some v ∧ t1.index i = some v :=
  C5_ReRawshape_amended tensor_1x1x2 [2] 2 (by decide) (by decide) (by decide) (by decide)

/-- C6 fails on the code: with `size() == 2` and `s == [2147483649, 2]`, whose product is
`2^32 + 2`, the 32-bit running product wraps to `2`, both checks pass, `ReRawshape`
succeeds and the buffer is reshaped to `2147483649 x 2 x 1`, that is `4294967298`
elements. -/
theorem C6_ReRawshape_accepts_wrapped_product :
    tensor_1x1x2.size = some 2 ∧ [2147483649, 2].prod = 4294967298 ∧
    (tensor_1x1x2.ReRawshape [2147483649, 2]).bind Tensor.shapes
      = some [1, 2147483649, 2] ∧
    (tensor_1x1x2.ReRawshape [2147483649, 2]).map (fun t => t.data_.size)
      = some 4294967298 := by
  decide

/-- C7. For all `c, r, k ≥ 1` the tensor built by `Tensor(c, r, k)` has
`shapes() = [c, r, k]`, and its `raw_shapes()` is `[k]` when `c = 1` and `r = 1`,
`[r, k]` when `c = 1` and `r ≠ 1`, and `[c, r, k]` otherwise. -/
theorem C7_constructor_shapes [Zero α] (c r k : Nat) (hc : 1 ≤ c) (hr : 1 ≤ r) (hk : 1 ≤ k) :
    (Tensor.new c r k : Tensor α).shapes = some [c, r, k] ∧
    (c = 1 → r = 1 → (Tensor.new c r k : Tensor α).raw_shapes = [k]) ∧
    (c = 1 → r ≠ 1 → (Tensor.new c r k : Tensor α).raw_shapes = [r, k]) ∧
    (c ≠ 1 → (Tensor.new c r k : Tensor α).raw_shapes = [c, r, k]) := by
  have hne : (Tensor.new c r k : Tensor α).empty = false :=
    (Cube.empty_eq_false_iff _).2 ⟨hr, hk, hc⟩
  refine ⟨?_, ?_, ?_, ?_⟩
  · rw [Tensor.shapes_eq _ hne]; rfl
  · intro h1 h2; simp [Tensor.raw_shapes, Tensor.new, h1, h2]
  · intro h1 h2; simp [Tensor.raw_shapes, Tensor.new, h1, h2]
  · intro h1; simp [Tensor.raw_shapes, Tensor.new, h1]

/-- C7, at `Tensor(1, 2, 3)`. -/
theorem C7_constructor_shapes_witness :
    (Tensor.new 1 2 3 : Tensor Int).shapes = some [1, 2, 3] ∧
    (1 = 1 → 2 = 1 → (Tensor.new 1 2 3 : Tensor Int).raw_shapes = [3]) ∧
    (1 = 1 → 2 ≠ 1 → (Tensor.new 1 2 3 : Tensor Int).raw_shapes = [2, 3]) ∧
    (1 ≠ 1 → (Tensor.new 1 2 3 : Tensor Int).raw_shapes = [1, 2, 3]) :=
  C7_constructor_shapes 1 2 3 (by decide) (by decide) (by decide)

/-- C9 as stated fails: `Tensor(1, 2, 2)` has `raw_shapes() == [2, 2]`, and after
`Padding([0, 0, 0, 0], 0)` its `raw_shapes()` is `[1, 2, 2]`, not the squeezed `[2, 2]`. -/
theorem C9_Padding_raw_shapes_counterexample :
    (Tensor.new 1 2 2 : Tensor Int).raw_shapes = [2, 2] ∧
    ((Tensor.new 1 2 2 : Tensor Int).Padding [0, 0, 0, 0] 0).map Tensor.raw_shapes
      = some [1, 2, 2] ∧
    ((Tensor.new 1 2 2 : Tensor Int).Padding [0, 0, 0, 0] 0).map Tensor.raw_shapes
      ≠ some [2, 2] := by
  decide

/-- C9, amended. For every non-empty tensor with `C` channels and every 4-entry pads list
`[top, bottom, left, right]`, the `raw_shapes()` recomputed by `Padding` is the full
3-entry `shapes()` of the new dimensions, `[C, rows', cols']` with `rows'` and `cols'` the
new `rows()` and `cols()`, whatever the value of `C`; `rows'` is `R + top + bottom` and
`cols'` is `K + left + right` whenever these sums are below `2^32`. -/
theorem C9_Padding_raw_shapes_amended [Zero α] (t : Tensor α) (C R K : Nat)
    (hC : t.channels = some C) (hR : t.rows = some R) (hK : t.cols = some K)
    (top bottom left right : Nat) (v : α) :
    ∃ t1 R1 K1, t.Padding [top, bottom, left, right] v = some t1 ∧
      t1.channels = some C ∧ t1.rows = some R1 ∧ t1.cols = some K1 ∧
      t1.raw_shapes = [C, R1, K1] ∧
      some t1.raw_shapes = t1.shapes ∧
      (R + top + bottom < 4294967296 → K + left + right < 4294967296 →
        R1 = R + top + bottom ∧ K1 = K + left + right) := by
  obtain ⟨hne, rfl, rfl, rfl⟩ := Tensor.of_accessors t C R K hC hR hK
  obtain ⟨t1, h1⟩ : ∃ t1, t.Padding [top, bottom, left, right] v = some t1 :=
    ⟨_, Tensor.Padding_eq t hne top bottom left right v⟩
  obtain ⟨d1, d2, d3, d4, d5⟩ := Tensor.Padding_dims t t1 hne top bottom left right v h1
  refine ⟨t1, t1.data_.n_rows, t1.data_.n_cols, h1, ?_, Tensor.rows_eq t1 d5,
    Tensor.cols_eq t1 d5, ?_, ?_, fun _ _ => ⟨d1, d2⟩⟩
  · rw [Tensor.channels_eq t1 d5, d3]
  · rw [Tensor.raw_shapes, d4, d1, d2]
  · rw [Tensor.shapes_eq t1 d5, d3, Tensor.raw_shapes, d4, d1, d2]

/-- C9 amended, at `Tensor(1, 2, 2)` padded with `[0, 0, 0, 0]`. -/
theorem C9_Padding_raw_shapes_amended_witness :
    ∃ t1 R1 K1, (Tensor.new 1 2 2 : Tensor Int).Padding [0, 0, 0, 0] 0 = some t1 ∧
      t1.channels = some 1 ∧ t1.rows = some R1 ∧ t1.cols = some K1 ∧
      t1.raw_shapes = [1, R1, K1] ∧
      some t1.raw_shapes = t1.shapes ∧
      (2 + 0 + 0 < 4294967296 → 2 + 0 + 0 < 4294967296 →
        R1 = 2 + 0 + 0 ∧ K1 = 2 + 0 + 0) :=
  C9_Padding_raw_shapes_amended _ 1 2 2 (by decide) (by decide) (by decide) 0 0 0 0 0

/-- C10. For all non-empty tensors `a` and `b` with `a.shapes() == b.shapes()`, over a
commutative ring, `ElementAdd(a, b)` and `ElementAdd(b, a)` both succeed with the same
tensor (same `shapes()`, same `raw_shapes()`, same element at every index), and so do
`ElementMultiply(a, b)` and `ElementMultiply(b, a)`. -/
theorem C10_Element_commutative [CommRing α] (a b : Tensor α) (ha : a.empty = false)
    (hb : b.empty = false) (hs : a.shapes = b.shapes) :
    (∃ t1 t2, Tensor.ElementAdd a b = some t1 ∧ Tensor.ElementAdd b a = some t2 ∧
      t1 = t2 ∧ t1.shapes = t2.shapes ∧ t1.raw_shapes = t2.raw_shapes ∧
      ∀ i, t1.index i = t2.index i) ∧
    (∃ t1 t2, Tensor.ElementMultiply a b = some t1 ∧ Tensor.ElementMultiply b a = some t2 ∧
      t1 = t2 ∧ t1.shapes = t2.shapes ∧ t1.raw_shapes = t2.raw_shapes ∧
      ∀ i, t1.index i = t2.index i) := by
  obtain ⟨e1, e2, e3⟩ := Tensor.shapes_eq_dims a b ha hb hs
  have hadd : Tensor.mk (a.data_.add b.data_)
        (Tensor.new a.data_.n_slices a.data_.n_rows a.data_.n_cols : Tensor α).raw_shapes_
      = Tensor.mk (b.data_.add a.data_)
        (Tensor.new b.data_.n_slices b.data_.n_rows b.data_.n_cols : Tensor α).raw_shapes_ := by
    rw [e1, e2, e3]
    congr 1
    ext i
    · exact e2
    · exact e3
    · exact e1
    · exact add_comm _ _
  have hmul : Tensor.mk (a.data_.schur b.data_)
        (Tensor.new a.data_.n_slices a.data_.n_rows a.data_.n_cols : Tensor α).raw_shapes_
      = Tensor.mk (b.data_.schur a.data_)
        (Tensor.new b.data_.n_slices b.data_.n_rows b.data_.n_cols : Tensor α).raw_shapes_ := by
    rw [e1, e2, e3]
    congr 1
    ext i
    · exact e2
    · exact e3
    · exact e1
    · exact mul_comm _ _
  refine ⟨⟨_, _, Tensor.ElementAdd_eq a b ha hb hs, Tensor.ElementAdd_eq b a hb ha hs.symm,
      hadd, ?_, ?_, ?_⟩,
    ⟨_, _, Tensor.ElementMultiply_eq a b ha hb hs, Tensor.ElementMultiply_eq b a hb ha hs.symm,
      hmul, ?_, ?_, ?_⟩⟩
  · rw [hadd]
  · rw [hadd]
  · intro i; rw [hadd]
  · rw [hmul]
  · rw [hmul]
  · intro i; rw [hmul]

/-- C10, at two copies of `Tensor(1, 2, 3)`. -/
theorem C10_Element_commutative_witness :
    (∃ t1 t2, Tensor.ElementAdd (Tensor.new 1 2 3 : Tensor Int) (Tensor.new 1 2 3) = some t1 ∧
      Tensor.ElementAdd (Tensor.new 1 2 3 : Tensor Int) (Tensor.new 1 2 3) = some t2 ∧
      t1 = t2 ∧ t1.shapes = t2.shapes ∧ t1.raw_shapes = t2.raw_shapes ∧
      ∀ i, t1.index i = t2.index i) ∧
    (∃ t1 t2, Tensor.ElementMultiply (Tensor.new 1 2 3 : Tensor Int) (Tensor.new 1 2 3)
        = some t1 ∧
      Tensor.ElementMultiply (Tensor.new 1 2 3 : Tensor Int) (Tensor.new 1 2 3) = some t2 ∧
      t1 = t2 ∧ t1.shapes = t2.shapes ∧ t1.raw_shapes = t2.raw_shapes ∧
      ∀ i, t1.index i = t2.index i) :=
  C10_Element_commutative _ _ (by decide) (by decide) (by decide)

/-- C11. For every non-empty tensor `x` with dimensions `(C, R, K)`, every tensor `z` of
the same `shapes()` whose elements are all `0` and every tensor `o` of the same `shapes()`
whose elements are all `1`, `ElementAdd(x, z)` and `ElementMultiply(x, o)` succeed, have
`shapes() == x.shapes()` and hold the element of `x` at every in-range `(c, r, k)`
(over a commutative ring). -/
theorem C11_identity_laws [CommRing α] (x z o : Tensor α) (C R K : Nat)
    (hC : x.channels = some C) (hR : x.rows = some R) (hK : x.cols = some K)
    (hz : z.shapes = x.shapes) (ho : o.shapes = x.shapes)
    (hz0 : ∀ c r k, c < C → r < R → k < K → z.at_ c r k = some 0)
    (ho1 : ∀ c r k, c < C → r < R → k < K → o.at_ c r k = some 1) :
    ∃ t1 t2, Tensor.ElementAdd x z = some t1 ∧ Tensor.ElementMultiply x o = some t2 ∧
      t1.shapes = x.shapes ∧ t2.shapes = x.shapes ∧
      ∀ c r k, c < C → r < R → k < K →
        ∃ v, x.at_ c r k = some v ∧ t1.at_ c r k = some v ∧ t2.at_ c r k = some v := by
  obtain ⟨hne, rfl, rfl, rfl⟩ := Tensor.of_accessors x C R K hC hR hK
  have hsx := Tensor.shapes_eq x hne
  have hzne : z.empty = false := Tensor.empty_false_of_shapes z _ (hz.trans hsx)
  have hone : o.empty = false := Tensor.empty_false_of_shapes o _ (ho.trans hsx)
  obtain ⟨t1, h1⟩ : ∃ t1, Tensor.ElementAdd x z = some t1 :=
    ⟨_, Tensor.ElementAdd_eq x z hne hzne hz.symm⟩
  obtain ⟨t2, h2⟩ : ∃ t2, Tensor.ElementMultiply x o = some t2 :=
    ⟨_, Tensor.ElementMultiply_eq x o hne hone ho.symm⟩
  refine ⟨t1, t2, h1, h2, Tensor.ElementAdd_shapes x z t1 h1,
    Tensor.ElementMultiply_shapes x o t2 h2, ?_⟩
  intro c r k hc hr hk
  have hx := Tensor.at_eq x c r k hc hr hk
  refine ⟨_, hx, ?_, ?_⟩
  · have := Tensor.ElementAdd_at x z t1 h1 c r k _ _ hx (hz0 c r k hc hr hk)
    rw [this, add_zero]
  · have := Tensor.ElementMultiply_at x o t2 h2 c r k _ _ hx (ho1 c r k hc hr hk)
    rw [this, mul_one]

/-- C11, at the 1 x 2 x 3 tensor holding `0, ..., 5`, with `z` the result of `Fill(0)` and
`o` the result of `Ones()` on a fresh `Tensor(1, 2, 3)`. -/
theorem C11_identity_laws_witness :
    ∃ z o, (Tensor.new 1 2 3 : Tensor Int).Fill_value 0 = some z ∧
      (Tensor.new 1 2 3 : Tensor Int).Ones = some o ∧
      ∃ t1 t2, Tensor.ElementAdd (⟨⟨2, 3, 1, fun i => (i : Int)⟩, [2, 3]⟩ : Tensor Int) z
          = some t1 ∧
        Tensor.ElementMultiply (⟨⟨2, 3, 1, fun i => (i : Int)⟩, [2, 3]⟩ : Tensor Int) o
          = some t2 ∧
        t1.shapes = (⟨⟨2, 3, 1, fun i => (i : Int)⟩, [2, 3]⟩ : Tensor Int).shapes ∧
        t2.shapes = (⟨⟨2, 3, 1, fun i => (i : Int)⟩, [2, 3]⟩ : Tensor Int).shapes ∧
        ∀ c r k, c < 1 → r < 2 → k < 3 →
          ∃ v, (⟨⟨2, 3, 1, fun i => (i : Int)⟩, [2, 3]⟩ : Tensor Int).at_ c r k = some v ∧
            t1.at_ c r k = some v ∧ t2.at_ c r k = some v :=
  ⟨_, _, rfl, rfl,
    C11_identity_laws _ _ _ 1 2 3 (by decide) (by decide) (by decide) (by decide) (by decide)
      (fun c r k hc hr hk => Tensor.at_eq _ c r k hc hr hk)
      (fun c r k hc hr hk => Tensor.at_eq _ c r k hc hr hk)⟩

/-- C12 as stated fails: with `a` and `b` both `Flatten()` of a `Tensor(2, 2, 2)`, whose
`raw_shapes()` is `[8]`, the results of `ElementAdd(a, b)` and `ElementMultiply(a, b)`
have `shapes() == a.shapes()` but `raw_shapes() == [8, 1]`. -/
theorem C12_result_raw_shapes_counterexample :
    tensor_flat8.map Tensor.raw_shapes = some [8] ∧
    (tensor_flat8.bind fun a => (Tensor.ElementAdd a a).map Tensor.raw_shapes)
      = some [8, 1] ∧
    (tensor_flat8.bind fun a => (Tensor.ElementMultiply a a).map Tensor.raw_shapes)
      = some [8, 1] ∧
    (tensor_flat8.bind fun a => (Tensor.ElementAdd a a).map Tensor.raw_shapes)
      ≠ tensor_flat8.map Tensor.raw_shapes ∧
    (tensor_flat8.bind fun a => (Tensor.ElementAdd a a).bind Tensor.shapes)
      = tensor_flat8.bind Tensor.shapes := by
  decide

/-- C12, amended. For all non-empty tensors `a` and `b` with equal `shapes()`
`[C, R, K]`, `ElementAdd(a, b)` and `ElementMultiply(a, b)` succeed and return a tensor
whose `shapes()` equals `a.shapes()` and whose `raw_shapes()` is the record the
constructor makes for `(C, R, K)`: `[K]` when `C = 1` and `R = 1`, `[R, K]` when `C = 1`
and `R ≠ 1`, and `[C, R, K]` otherwise, whatever `a.raw_shapes()` is. -/
theorem C12_result_shape_amended [Zero α] [Add α] [Mul α] (a b : Tensor α) (C R K : Nat)
    (hC : a.channels = some C) (hR : a.rows = some R) (hK : a.cols = some K)
    (hb : b.empty = false) (hs : a.shapes = b.shapes) :
    ∃ t1 t2, Tensor.ElementAdd a b = some t1 ∧ Tensor.ElementMultiply a b = some t2 ∧
      t1.shapes = a.shapes ∧ t2.shapes = a.shapes ∧
      t1.raw_shapes = (if C = 1 ∧ R = 1 then [K] else if C = 1 then [R, K] else [C, R, K]) ∧
      t2.raw_shapes = (if C = 1 ∧ R = 1 then [K] else if C = 1 then [R, K] else [C, R, K]) := by
  obtain ⟨hne, rfl, rfl, rfl⟩ := Tensor.of_accessors a C R K hC hR hK
  obtain ⟨t1, h1⟩ : ∃ t1, Tensor.ElementAdd a b = some t1 :=
    ⟨_, Tensor.ElementAdd_eq a b hne hb hs⟩
  obtain ⟨t2, h2⟩ : ∃ t2, Tensor.ElementMultiply a b = some t2 :=
    ⟨_, Tensor.ElementMultiply_eq a b hne hb hs⟩
  refine ⟨t1, t2, h1, h2, Tensor.ElementAdd_shapes a b t1 h1,
    Tensor.ElementMultiply_shapes a b t2 h2, ?_, ?_⟩
  · obtain ⟨_, _, _, e⟩ := Tensor.ElementAdd_some a b t1 h1
    subst e
    rfl
  · obtain ⟨_, _, _, e⟩ := Tensor.ElementMultiply_some a b t2 h2
    subst e
    rfl

/-- C12 amended, at the 8 x 1 x 1 buffer with `raw_shapes() == [8]` that `Flatten()`
makes of a `Tensor(2, 2, 2)`. -/
theorem C12_result_shape_amended_witness :
    ∃ t1 t2, Tensor.ElementAdd (⟨⟨8, 1, 1, fun _ => 0⟩, [8]⟩ : Tensor Int)
          ⟨⟨8, 1, 1, fun _ => 0⟩, [8]⟩ = some t1 ∧
      Tensor.ElementMultiply (⟨⟨8, 1, 1, fun _ => 0⟩, [8]⟩ : Tensor Int)
          ⟨⟨8, 1, 1, fun _ => 0⟩, [8]⟩ = some t2 ∧
      t1.shapes = (⟨⟨8, 1, 1, fun _ => 0⟩, [8]⟩ : Tensor Int).shapes ∧
      t2.shapes = (⟨⟨8, 1, 1, fun _ => 0⟩, [8]⟩ : Tensor Int).shapes ∧
      t1.raw_shapes = (if 1 = 1 ∧ 8 = 1 then [1] else if 1 = 1 then [8, 1] else [1, 8, 1]) ∧
      t2.raw_shapes = (if 1 = 1 ∧ 8 = 1 then [1] else if 1 = 1 then [8, 1] else [1, 8, 1]) :=
  C12_result_shape_amended _ _ 1 8 1 (by decide) (by decide) (by decide) (by decide)
    (by decide)

/-- C13. For all tensors `a` and `b`, `ElementAdd(a, b)` and `ElementMultiply(a, b)` abort
if and only if `a` is empty, `b` is empty, or `a.shapes() != b.shapes()`; otherwise the
result has the `shapes()` of `a` and its element at every in-range `(c, r, k)` is
`a.at(c, r, k) + b.at(c, r, k)`, respectively `a.at(c, r, k) * b.at(c, r, k)`.  (Both
functions only read their operands.) -/
theorem C13_Element_failure_and_values [Zero α] [Add α] [Mul α] (a b : Tensor α) :
    (Tensor.ElementAdd a b = none ↔
      (a.empty = true ∨ b.empty = true ∨ a.shapes ≠ b.shapes)) ∧
    (Tensor.ElementMultiply a b = none ↔
      (a.empty = true ∨ b.empty = true ∨ a.shapes ≠ b.shapes)) ∧
    (∀ t1, Tensor.ElementAdd a b = some t1 → t1.shapes = a.shapes ∧
      ∀ c r k va vb, a.at_ c r k = some va → b.at_ c r k = some vb →
        t1.at_ c r k = some (va + vb)) ∧
    (∀ t1, Tensor.ElementMultiply a b = some t1 → t1.shapes = a.shapes ∧
      ∀ c r k va vb, a.at_ c r k = some va → b.at_ c r k = some vb →
        t1.at_ c r k = some (va * vb)) := by
  have key : ∀ (r : Option (Tensor α)),
      (∀ t1, r = some t1 → a.empty = false ∧ b.empty = false ∧ a.shapes = b.shapes) →
      (a.empty = false → b.empty = false → a.shapes = b.shapes → ∃ t1, r = some t1) →
      (r = none ↔ (a.empty = true ∨ b.empty = true ∨ a.shapes ≠ b.shapes)) := by
    intro r h1 h2
    constructor
    · intro hr
      by_contra hc
      simp only [not_or, Bool.not_eq_true, ne_eq, not_not] at hc
      obtain ⟨t1, e⟩ := h2 hc.1 hc.2.1 hc.2.2
      rw [hr] at e
      exact absurd e (by simp)
    · intro hc
      cases hr : r with
      | none => rfl
      | some t1 =>
        obtain ⟨ea, eb, es⟩ := h1 t1 hr
        rcases hc with hc | hc | hc
        · rw [ea] at hc; exact absurd hc (by simp)
        · rw [eb] at hc; exact absurd hc (by simp)
        · exact absurd es hc
  refine ⟨key _ ?_ ?_, key _ ?_ ?_, ?_, ?_⟩
  · intro t1 h
    obtain ⟨ea, eb, es, _⟩ := Tensor.ElementAdd_some a b t1 h
    exact ⟨ea, eb, es⟩
  · intro ea eb es
    exact ⟨_, Tensor.ElementAdd_eq a b ea eb es⟩
  · intro t1 h
    obtain ⟨ea, eb, es, _⟩ := Tensor.ElementMultiply_some a b t1 h
    exact ⟨ea, eb, es⟩
  · intro ea eb es
    exact ⟨_, Tensor.ElementMultiply_eq a b ea eb es⟩
  · intro t1 h
    exact ⟨Tensor.ElementAdd_shapes a b t1 h, fun c r k va vb ha hb =>
      Tensor.ElementAdd_at a b t1 h c r k va vb ha hb⟩
  · intro t1 h
    exact ⟨Tensor.ElementMultiply_shapes a b t1 h, fun c r k va vb ha hb =>
      Tensor.ElementMultiply_at a b t1 h c r k va vb ha hb⟩

/-- C13, at the 1 x 2 x 3 tensor `A` holding `0, ..., 5`: `ElementAdd(A, A)` and
`ElementMultiply(A, A)` succeed with the sum and the product at `(0, 1, 2)`, and
`ElementAdd` of `A` and an empty tensor aborts. -/
theorem C13_Element_failure_and_values_witness :
    (∃ t1, Tensor.ElementAdd (⟨⟨2, 3, 1, fun i => (i : Int)⟩, [2, 3]⟩ : Tensor Int)
        ⟨⟨2, 3, 1, fun i => (i : Int)⟩, [2, 3]⟩ = some t1 ∧
      t1.shapes = some [1, 2, 3] ∧ t1.at_ 0 1 2 = some (5 + 5)) ∧
    (∃ t2, Tensor.ElementMultiply (⟨⟨2, 3, 1, fun i => (i : Int)⟩, [2, 3]⟩ : Tensor Int)
        ⟨⟨2, 3, 1, fun i => (i : Int)⟩, [2, 3]⟩ = some t2 ∧
      t2.shapes = some [1, 2, 3] ∧ t2.at_ 0 1 2 = some (5 * 5)) ∧
    Tensor.ElementAdd (⟨⟨2, 3, 1, fun i => (i : Int)⟩, [2, 3]⟩ : Tensor Int)
      ⟨⟨0, 0, 0, fun _ => 0⟩, []⟩ = none := by
  obtain ⟨h1, _, h3, h4⟩ := C13_Element_failure_and_values
    (⟨⟨2, 3, 1, fun i => (i : Int)⟩, [2, 3]⟩ : Tensor Int)
    ⟨⟨2, 3, 1, fun i => (i : Int)⟩, [2, 3]⟩
  obtain ⟨g1, _, _, _⟩ := C13_Element_failure_and_values
    (⟨⟨2, 3, 1, fun i => (i : Int)⟩, [2, 3]⟩ : Tensor Int) ⟨⟨0, 0, 0, fun _ => 0⟩, []⟩
  refine ⟨?_, ?_, g1.2 (Or.inr (Or.inl (by decide)))⟩
  · obtain ⟨t1, e⟩ := Option.isSome_iff_exists.1
      (by decide : (Tensor.ElementAdd (⟨⟨2, 3, 1, fun i => (i : Int)⟩, [2, 3]⟩ : Tensor Int)
        ⟨⟨2, 3, 1, fun i => (i : Int)⟩, [2, 3]⟩).isSome = true)
    obtain ⟨a, b⟩ := h3 t1 e
    exact ⟨t1, e, by rw [a]; decide, b 0 1 2 5 5 (by decide) (by decide)⟩
  · obtain ⟨t2, e⟩ := Option.isSome_iff_exists.1
      (by decide : (Tensor.ElementMultiply
        (⟨⟨2, 3, 1, fun i => (i : Int)⟩, [2, 3]⟩ : Tensor Int)
        ⟨⟨2, 3, 1, fun i => (i : Int)⟩, [2, 3]⟩).isSome = true)
    obtain ⟨a, b⟩ := h4 t2 e
    exact ⟨t2, e, by rw [a]; decide, b 0 1 2 5 5 (by decide) (by decide)⟩

/-- C14. If `inputs` is empty, `SiLULayer::Forward` returns `kInferFailedInputEmpty`; if
`inputs` is non-empty and `inputs.size() != outputs.size()`, it returns
`kInferFailedInputOutSizeAdaptingError`; in both cases the `outputs` vector it leaves is
the one it was given, with the same handles and tensors. -/
theorem C14_Forward_precondition_status [DivisionRing α] (exp : α → α)
    (inputs outputs : List (Option (Tensor α))) :
    (inputs = [] → SiLULayer.Forward exp inputs outputs
      = .ok (InferStatus.kInferFailedInputEmpty, outputs)) ∧
    (inputs ≠ [] → inputs.length ≠ outputs.length → SiLULayer.Forward exp inputs outputs
      = .ok (InferStatus.kInferFailedInputOutSizeAdaptingError, outputs)) := by
  constructor
  · rintro rfl
    rfl
  · intro hne hlen
    have h1 : inputs.isEmpty = false := by
      cases inputs with
      | nil => exact absurd rfl hne
      | cons a l => rfl
    have h2 : (inputs.length != outputs.length) = true := by
      simpa using hlen
    unfold SiLULayer.Forward
    simp only [h1, h2, Bool.false_eq_true, if_false, if_true]
    rfl

/-- C14, at an empty batch with one output slot and at a one-item batch with no output
slot. -/
theorem C14_Forward_precondition_status_witness :
    SiLULayer.Forward exp_series [] [some zero_1x2x2]
      = .ok (InferStatus.kInferFailedInputEmpty, [some zero_1x2x2]) ∧
    SiLULayer.Forward exp_series [some zero_1x2x2] []
      = .ok (InferStatus.kInferFailedInputOutSizeAdaptingError, []) :=
  ⟨(C14_Forward_precondition_status exp_series [] [some zero_1x2x2]).1 rfl,
   (C14_Forward_precondition_status exp_series [some zero_1x2x2] []).2 (by simp) (by simp)⟩

/-- C15. For every non-empty batch of non-null, non-empty inputs and an equal-length
`outputs` batch on which `SiLULayer::Forward` returns success, the new `outputs` has the
same length and for every index `i` the tensor at `outputs[i]` has the `shapes()` of
`inputs[i]` and holds `x / (1 + exp(-x))` at every position where `inputs[i]` holds `x`;
in particular it holds `0` wherever the input holds `0`. -/
theorem C15_Forward_values [DivisionRing α] (exp : α → α)
    (inputs outputs outs : List (Option (Tensor α))) (hne : inputs ≠ [])
    (hvalid : ∀ (i : Nat) (h : Option (Tensor α)), inputs[i]? = some h → ∃ t, h = some t ∧ t.empty = false)
    (hlen : inputs.length = outputs.length)
    (hok : SiLULayer.Forward exp inputs outputs = .ok (InferStatus.kInferSuccess, outs)) :
    outs.length = outputs.length ∧
    ∀ (i : Nat) (t_in : Tensor α), inputs[i]? = some (some t_in) →
      ∃ t_out, outs[i]? = some (some t_out) ∧ t_out.shapes = t_in.shapes ∧
        (∀ c r k x, t_in.at_ c r k = some x →
          t_out.at_ c r k = some (x / (1 + exp (-x)))) ∧
        (∀ c r k, t_in.at_ c r k = some 0 → t_out.at_ c r k = some 0) := by
  rcases SiLULayer.Forward_spec exp inputs outputs hne hlen with
    ⟨outs1, hf, hl, hdone⟩ | ⟨i, e, _, _, hf, _⟩
  · rw [hf] at hok
    have e1 : outs1 = outs := by
      injection hok with h
      exact (Prod.mk.inj h).2
    subst e1
    refine ⟨hl, ?_⟩
    intro i t_in hi
    have hilt : i < inputs.length := by
      by_contra hc
      rw [List.getElem?_eq_none (by omega)] at hi
      exact absurd hi (by simp)
    obtain ⟨t, ht, hte⟩ := hvalid i _ hi
    cases ht
    obtain ⟨out, hitem, hout⟩ := hdone i hilt
    have hg : inputs.getD i none = some t_in := by
      have := SiLULayer.getElem?_getD inputs i none hilt
      rw [hi] at this
      exact (Option.some.inj this).symm
    rw [hg] at hitem
    rcases SiLULayer.item_valid exp t_in (outputs.getD i none) hte with ⟨herr, _⟩ | ⟨⟨raw, hres⟩, _⟩
    · rw [herr] at hitem
      exact absurd hitem (by simp)
    · rw [hres] at hitem
      injection hitem with hitem
      subst hitem
      obtain ⟨hs, hv⟩ := SiLULayer.silu_tensor exp t_in raw hte
      refine ⟨_, hout, hs, hv, ?_⟩
      intro c r k h0
      rw [hv c r k 0 h0, zero_div]
  · rw [hf] at hok
    exact absurd hok (by simp)

/-- C15, at the batch holding the all-zero tensor of shape `[1, 2, 2]` with a null
output slot. -/
theorem C15_Forward_values_witness :
    ∃ outs, SiLULayer.Forward exp_series [some zero_1x2x2] [none]
        = .ok (InferStatus.kInferSuccess, outs) ∧
      outs.length = [(none : Option (Tensor ℚ))].length ∧
      ∀ (i : Nat) (t_in : Tensor ℚ), [some zero_1x2x2][i]? = some (some t_in) →
        ∃ t_out, outs[i]? = some (some t_out) ∧ t_out.shapes = t_in.shapes ∧
          (∀ c r k x, t_in.at_ c r k = some x →
            t_out.at_ c r k = some (x / (1 + exp_series (-x)))) ∧
          (∀ c r k, t_in.at_ c r k = some 0 → t_out.at_ c r k = some 0) :=
  ⟨[some ⟨silu_cube exp_series zero_1x2x2.data_, [2, 2]⟩], rfl,
    C15_Forward_values exp_series [some zero_1x2x2] [none] _ (by simp)
      (SiLULayer.singleton_valid zero_1x2x2 rfl) rfl rfl⟩

/-- C16. For every non-empty batch of non-null, non-empty inputs and every `outputs`
batch of the same length, `SiLULayer::Forward` stops at a failed `CHECK` if and only if
some index `i` holds a non-null, non-empty output tensor whose `shapes()` differs from
`inputs[i].shapes()`; in every other case it returns the success status. -/
theorem C16_Forward_fatal_iff_shape_mismatch [DivisionRing α] (exp : α → α)
    (inputs outputs : List (Option (Tensor α))) (hne : inputs ≠ [])
    (hvalid : ∀ (i : Nat) (h : Option (Tensor α)), inputs[i]? = some h → ∃ t, h = some t ∧ t.empty = false)
    (hlen : inputs.length = outputs.length) :
    (SiLULayer.Forward exp inputs outputs = .error Abort.check_failed ↔
      ∃ (i : Nat) (t_in t_out : Tensor α), inputs[i]? = some (some t_in) ∧ outputs[i]? = some (some t_out) ∧
        t_out.empty = false ∧ t_out.shapes ≠ t_in.shapes) ∧
    ((¬ ∃ (i : Nat) (t_in t_out : Tensor α), inputs[i]? = some (some t_in) ∧ outputs[i]? = some (some t_out) ∧
        t_out.empty = false ∧ t_out.shapes ≠ t_in.shapes) →
      ∃ outs, SiLULayer.Forward exp inputs outputs
        = .ok (InferStatus.kInferSuccess, outs)) := by
  have hin : ∀ i, i < inputs.length →
      ∃ t_in, inputs[i]? = some (some t_in) ∧ inputs.getD i none = some t_in ∧
        t_in.empty = false := by
    intro i hi
    have h1 := SiLULayer.getElem?_getD inputs i none hi
    obtain ⟨t, ht, hte⟩ := hvalid i _ h1
    exact ⟨t, by rw [h1, ht], ht, hte⟩
  have hmis : ∀ i, i < inputs.length → ∀ e,
      SiLULayer.item exp (inputs.getD i none) (outputs.getD i none) = .error e →
      e = Abort.check_failed ∧
      ∃ (i : Nat) (t_in t_out : Tensor α), inputs[i]? = some (some t_in) ∧ outputs[i]? = some (some t_out) ∧
        t_out.empty = false ∧ t_out.shapes ≠ t_in.shapes := by
    intro i hi e he
    obtain ⟨t_in, h1, h2, h3⟩ := hin i hi
    rw [h2] at he
    rcases SiLULayer.item_valid exp t_in (outputs.getD i none) h3 with
      ⟨herr, t_out, ho, hoe, hos⟩ | ⟨⟨raw, hres⟩, _⟩
    · rw [herr] at he
      injection he with he
      refine ⟨he.symm, i, t_in, t_out, h1, ?_, hoe, hos⟩
      rw [SiLULayer.getElem?_getD outputs i none (by omega), ho]
    · rw [hres] at he
      exact absurd he (by simp)
  have hfail : (∃ (i : Nat) (t_in t_out : Tensor α), inputs[i]? = some (some t_in) ∧
      outputs[i]? = some (some t_out) ∧ t_out.empty = false ∧ t_out.shapes ≠ t_in.shapes) →
      ∃ i, i < inputs.length ∧
        SiLULayer.item exp (inputs.getD i none) (outputs.getD i none)
          = .error Abort.check_failed := by
    rintro ⟨i, t_in, t_out, h1, h2, h3, h4⟩
    have hilt : i < inputs.length := by
      by_contra hc
      rw [List.getElem?_eq_none (by omega)] at h1
      exact absurd h1 (by simp)
    obtain ⟨t, g1, g2, g3⟩ := hin i hilt
    rw [h1] at g1
    have e1 : t_in = t := Option.some.inj (Option.some.inj g1)
    subst e1
    have g4 : outputs.getD i none = some t_out := by
      have := SiLULayer.getElem?_getD outputs i none (by omega : i < outputs.length)
      rw [h2] at this
      exact (Option.some.inj this).symm
    refine ⟨i, hilt, ?_⟩
    rw [g2, g4]
    exact SiLULayer.item_mismatch exp t_in t_out g3 h3 h4
  rcases SiLULayer.Forward_spec exp inputs outputs hne hlen with
    ⟨outs1, hf, _, hdone⟩ | ⟨i, e, hi, hie, hf, _⟩
  · have hno : ¬ ∃ (i : Nat) (t_in t_out : Tensor α), inputs[i]? = some (some t_in) ∧
        outputs[i]? = some (some t_out) ∧ t_out.empty = false ∧
        t_out.shapes ≠ t_in.shapes := by
      intro hm
      obtain ⟨i, hi, herr⟩ := hfail hm
      obtain ⟨out, hok, _⟩ := hdone i hi
      rw [herr] at hok
      exact absurd hok (by simp)
    refine ⟨⟨fun h => ?_, fun h => absurd h hno⟩, fun _ => ⟨outs1, hf⟩⟩
    rw [hf] at h
    exact absurd h (by simp)
  · obtain ⟨he, hm⟩ := hmis i hi e hie
    subst he
    exact ⟨⟨fun _ => hm, fun _ => hf⟩, fun hno => absurd hm hno⟩

/-- C16, at the batch holding the all-zero tensor of shape `[1, 2, 2]`: with an output
tensor of shape `[1, 1, 4]` the call stops at the shape check, with a null output slot it
returns success. -/
theorem C16_Forward_fatal_iff_shape_mismatch_witness :
    SiLULayer.Forward exp_series [some zero_1x2x2] [some (Tensor.new 1 1 4)]
      = .error Abort.check_failed ∧
    ∃ outs, SiLULayer.Forward exp_series [some zero_1x2x2] [none]
      = .ok (InferStatus.kInferSuccess, outs) :=
  ⟨(C16_Forward_fatal_iff_shape_mismatch exp_series [some zero_1x2x2]
      [some (Tensor.new 1 1 4)] (by simp) (SiLULayer.singleton_valid zero_1x2x2 rfl) rfl).1.2
      ⟨0, zero_1x2x2, Tensor.new 1 1 4, rfl, rfl, rfl, by decide⟩,
   (C16_Forward_fatal_iff_shape_mismatch exp_series [some zero_1x2x2] [none] (by simp)
      (SiLULayer.singleton_valid zero_1x2x2 rfl) rfl).2
      (by
        rintro ⟨i, t_in, t_out, _, h2, _, _⟩
        cases i with
        | zero => exact absurd h2 (by simp)
        | succ j => exact absurd h2 (by simp))⟩

/-- C17 as stated fails: on the 1 x 2 x 3 tensor filled with `0, ..., 5`,
`index(0*2*3 + 0*3 + 1)` is `3` while `at(0, 0, 1)` is `1`. -/
theorem C17_index_row_major_counterexample :
    (tensor_1x2x3.bind fun t => t.index (0 * 2 * 3 + 0 * 3 + 1)) = some 3 ∧
    (tensor_1x2x3.bind fun t => t.at_ 0 0 1) = some 1 ∧
    (tensor_1x2x3.bind fun t => t.index (0 * 2 * 3 + 0 * 3 + 1))
      ≠ (tensor_1x2x3.bind fun t => t.at_ 0 0 1) := by
  decide

/-- C17, amended. For every non-empty tensor with dimensions `(C, R, K)` and every
in-range `(c, r, k)`, the flat-buffer read `index(c * R * K + k * R + r)` equals
`at(c, r, k)`: the order exposed by `index(offset)` is column-major within each channel,
with the channels as contiguous planes. -/
theorem C17_index_column_major_amended (t : Tensor α) (C R K : Nat)
    (hC : t.channels = some C) (hR : t.rows = some R) (hK : t.cols = some K)
    (c r k : Nat) (hc : c < C) (hr : r < R) (hk : k < K) :
    ∃ v, t.at_ c r k = some v ∧ t.index (c * R * K + k * R + r) = some v := by
  obtain ⟨hne, rfl, rfl, rfl⟩ := Tensor.of_accessors t C R K hC hR hK
  refine ⟨_, Tensor.at_eq t c r k hc hr hk, ?_⟩
  have hlt := Tensor.offset_lt_col c r k _ _ _ hc hr hk
  have e : t.data_.n_slices * (t.data_.n_rows * t.data_.n_cols)
      = t.data_.n_rows * t.data_.n_cols * t.data_.n_slices := by ring
  rw [Nat.mul_assoc, Tensor.index_eq t _ (by rw [← e]; exact hlt)]

/-- C17 amended, at the 2 x 2 x 2 tensor holding `0, ..., 7`, position `(1, 0, 1)`. -/
theorem C17_index_column_major_amended_witness :
    ∃ v, (⟨⟨2, 2, 2, fun i => (i : Int)⟩, [2, 2, 2]⟩ : Tensor Int).at_ 1 0 1 = some v ∧
      (⟨⟨2, 2, 2, fun i => (i : Int)⟩, [2, 2, 2]⟩ : Tensor Int).index (1 * 2 * 2 + 1 * 2 + 0)
        = some v :=
  C17_index_column_major_amended _ 2 2 2 (by decide) (by decide) (by decide) 1 0 1
    (by decide) (by decide) (by decide)

/-- C18. For every non-empty tensor and every sequence `values` of length `size()`,
`Fill(values)` followed by `Flatten()` succeeds and yields a tensor with
`index(i) == values[i]` for every `i < size()`. -/
theorem C18_Fill_then_Flatten [Zero α] (t : Tensor α) (values : List α) (n : Nat)
    (hsize : t.size = some n) (hlen : values.length = n) :
    ∃ t1 t2, t.Fill_values values = some t1 ∧ t1.Flatten = some t2 ∧
      ∀ i, i < n → ∃ v, values[i]? = some v ∧ t2.index i = some v := by
  have hne : t.empty = false := by
    cases h : t.data_.empty
    · exact h
    · simp [Tensor.size, h] at hsize
  rw [Tensor.size_eq t hne] at hsize
  have hn := Option.some.inj hsize
  have hlen2 : values.length = t.data_.n_rows * t.data_.n_cols * t.data_.n_slices := by
    rw [hlen, hn]
  obtain ⟨t1, h1⟩ : ∃ t1, t.Fill_values values = some t1 :=
    ⟨_, Tensor.Fill_values_eq t values hne hlen2⟩
  obtain ⟨a1, a2, a3, _⟩ := Tensor.Fill_values_some t t1 values h1
  have hne1 : t1.empty = false := by
    obtain ⟨pR, pK, pC⟩ := Tensor.empty_false_dims t hne
    exact (Cube.empty_eq_false_iff _).2 ⟨by rw [a1]; exact pR, by rw [a2]; exact pK,
      by rw [a3]; exact pC⟩
  obtain ⟨t2, h2⟩ : ∃ t2, t1.Flatten = some t2 := ⟨_, Tensor.Flatten_eq t1 hne1⟩
  obtain ⟨d1, d2, d3, _, _⟩ := Tensor.Flatten_dims t1 t2 hne1 h2
  refine ⟨t1, t2, h1, h2, ?_⟩
  intro i hi
  have e : t.data_.n_slices * (t.data_.n_rows * t.data_.n_cols)
      = t.data_.n_rows * t.data_.n_cols * t.data_.n_slices := by ring
  have hi2 : i < t.data_.n_slices * (t.data_.n_rows * t.data_.n_cols) := by
    rw [e, hn]; exact hi
  obtain ⟨c, r, k, hc, hr, hk, rfl⟩ := Tensor.offset_split i _ _ _ hi2
  obtain ⟨t1', e1, _, _, _, _, hm⟩ := Tensor.Fill_values_mem t values hne hlen2 c r k hc hr hk
  rw [h1] at e1
  have e1' := Option.some.inj e1
  subst e1'
  have hlt : c * (t.data_.n_rows * t.data_.n_cols) + r * t.data_.n_cols + k < values.length := by
    rw [hlen]; exact hi
  refine ⟨values[c * (t.data_.n_rows * t.data_.n_cols) + r * t.data_.n_cols + k],
    List.getElem?_eq_getElem hlt, ?_⟩
  have hfm := Tensor.Flatten_mem t1 t2 hne1 h2 c r k (by rw [a3]; exact hc)
    (by rw [a1]; exact hr) (by rw [a2]; exact hk)
  rw [a1, a2] at hfm
  rw [Tensor.index_eq t2 _ (by rw [d1, d2, d3, a1, a2, a3, Nat.mul_one, Nat.mul_one, hn]; exact hi),
    hfm, hm, List.getD_eq_getElem _ _ hlt]

/-- C18, at `Tensor(1, 2, 3)` and the sequence `[0, 1, 2, 3, 4, 5]`. -/
theorem C18_Fill_then_Flatten_witness :
    ∃ t1 t2, (Tensor.new 1 2 3 : Tensor Int).Fill_values [0, 1, 2, 3, 4, 5] = some t1 ∧
      t1.Flatten = some t2 ∧
      ∀ i, i < 6 → ∃ v, [(0 : Int), 1, 2, 3, 4, 5][i]? = some v ∧ t2.index i = some v :=
  C18_Fill_then_Flatten _ _ 6 (by decide) (by decide)

/-- C19 as stated fails: for the fresh `Tensor(1, 1, 5)`, whose `raw_shapes()` is `[5]`,
`ReRawshape(raw_shapes())` succeeds but turns `shapes()` from `[1, 1, 5]` into `[1, 5, 1]`,
and `at(0, 0, 1)`, readable before, aborts afterwards. -/
theorem C19_ReRawshape_raw_shapes_counterexample :
    tensor_1x1x5.raw_shapes = [5] ∧
    tensor_1x1x5.shapes = some [1, 1, 5] ∧
    (tensor_1x1x5.ReRawshape tensor_1x1x5.raw_shapes).bind Tensor.shapes = some [1, 5, 1] ∧
    tensor_1x1x5.at_ 0 0 1 = some 0 ∧
    ((tensor_1x1x5.ReRawshape tensor_1x1x5.raw_shapes).bind fun t => t.at_ 0 0 1) = none := by
  decide

/-- C19, amended. For every tensor `t` with dimensions `(C, R, K)`, all at least 1, whose
`raw_shapes()` is the record the constructor makes for them (in particular the fresh
`Tensor(C, R, K)`), `t.ReRawshape(t.raw_shapes())` succeeds and leaves `raw_shapes()` and
every `index(i)` unchanged; unless `C = 1`, `R = 1` and `K ≠ 1` it also leaves `shapes()`
and every `at(c, r, k)` unchanged; when `C = 1` and `R = 1` the buffer becomes a column:
`shapes()` is `[1, K, 1]` and the old `at(0, 0, j)` is the new `at(0, j, 0)`. -/
theorem C19_ReRawshape_raw_shapes_amended [Zero α] (t : Tensor α) (C R K : Nat)
    (hC : t.channels = some C) (hR : t.rows = some R) (hK : t.cols = some K)
    (hraw : t.raw_shapes
      = if C = 1 ∧ R = 1 then [K] else if C = 1 then [R, K] else [C, R, K]) :
    ∃ t1, t.ReRawshape t.raw_shapes = some t1 ∧
      t1.raw_shapes = t.raw_shapes ∧
      (∀ i, i < C * R * K → ∃ v, t.index i = some v ∧ t1.index i = some v) ∧
      (¬ (C = 1 ∧ R = 1 ∧ K ≠ 1) →
        t1.shapes = t.shapes ∧ ∀ c r k, t1.at_ c r k = t.at_ c r k) ∧
      (C = 1 → R = 1 →
        t1.shapes = some [1, K, 1] ∧
        ∀ j, j < K → ∃ v, t.at_ 0 0 j = some v ∧ t1.at_ 0 j 0 = some v) := by
  obtain ⟨hne, rfl, rfl, rfl⟩ := Tensor.of_accessors t C R K hC hR hK
  obtain ⟨pR, pK, pC⟩ := Tensor.empty_false_dims t hne
  have hprod : t.raw_shapes.prod = t.data_.n_rows * t.data_.n_cols * t.data_.n_slices := by
    rw [hraw]
    by_cases c1 : t.data_.n_slices = 1
    · by_cases c2 : t.data_.n_rows = 1
      · simp [c1, c2]
      · simp [c1, c2]
    · simp only [c1, false_and, if_false, List.prod_cons, List.prod_nil]
      ring
  have hlen : t.raw_shapes ≠ [] ∧ t.raw_shapes.length ≤ 3 := by
    rw [hraw]
    by_cases c1 : t.data_.n_slices = 1
    · by_cases c2 : t.data_.n_rows = 1
      · simp [c1, c2]
      · simp [c1, c2]
    · simp [c1]
  obtain ⟨t1, h1⟩ : ∃ t1, t.ReRawshape t.raw_shapes = some t1 :=
    ⟨_, Tensor.ReRawshape_eq t _ hne hlen.1 hlen.2 (by rw [hprod])⟩
  obtain ⟨e3, e2, e1⟩ := Tensor.ReRawshape_dims t t1 _ h1
  have hmem := Tensor.ReRawshape_mem t t1 _ h1
  have same : t1.data_.n_rows = t.data_.n_rows → t1.data_.n_cols = t.data_.n_cols →
      t1.data_.n_slices = t.data_.n_slices →
      t1.shapes = t.shapes ∧ ∀ c r k, t1.at_ c r k = t.at_ c r k := by
    intro a b c
    have hne1 : t1.empty = false :=
      (Cube.empty_eq_false_iff _).2 ⟨by rw [a]; exact pR, by rw [b]; exact pK,
        by rw [c]; exact pC⟩
    exact ⟨by rw [Tensor.shapes_eq t1 hne1, Tensor.shapes_eq t hne, a, b, c],
      Tensor.at_congr t t1 a b c hmem⟩
  have hsize1 : t1.data_.n_rows * t1.data_.n_cols * t1.data_.n_slices
      = t.data_.n_rows * t.data_.n_cols * t.data_.n_slices := by
    by_cases c1 : t.data_.n_slices = 1
    · by_cases c2 : t.data_.n_rows = 1
      · obtain ⟨a, b, c⟩ := e1 t.data_.n_cols (by rw [hraw]; simp [c1, c2])
        rw [a, b, c, c1, c2]; simp
      · obtain ⟨a, b, c⟩ := e2 t.data_.n_rows t.data_.n_cols (by rw [hraw]; simp [c1, c2])
        rw [a, b, c, c1]
    · obtain ⟨a, b, c⟩ := e3 t.data_.n_slices t.data_.n_rows t.data_.n_cols
        (by rw [hraw]; simp [c1])
      rw [a, b, c]
  refine ⟨t1, h1, Tensor.ReRawshape_raw t t1 _ h1, ?_, ?_, ?_⟩
  · intro i hi
    have hi2 : i < t.data_.n_rows * t.data_.n_cols * t.data_.n_slices := by
      calc i < t.data_.n_slices * t.data_.n_rows * t.data_.n_cols := hi
        _ = t.data_.n_rows * t.data_.n_cols * t.data_.n_slices := by ring
    refine ⟨_, Tensor.index_eq t i hi2, ?_⟩
    rw [Tensor.index_eq t1 i (by rw [hsize1]; exact hi2), hmem i hi2]
  · intro hnot
    by_cases c1 : t.data_.n_slices = 1
    · by_cases c2 : t.data_.n_rows = 1
      · have c3 : t.data_.n_cols = 1 := by
          by_contra h
          exact hnot ⟨c1, c2, h⟩
        obtain ⟨a, b, c⟩ := e1 t.data_.n_cols (by rw [hraw]; simp [c1, c2])
        exact same (by rw [a, c3, c2]) (by rw [b, c3]) (by rw [c, c1])
      · obtain ⟨a, b, c⟩ := e2 t.data_.n_rows t.data_.n_cols (by rw [hraw]; simp [c1, c2])
        exact same a b (by rw [c, c1])
    · obtain ⟨a, b, c⟩ := e3 t.data_.n_slices t.data_.n_rows t.data_.n_cols
        (by rw [hraw]; simp [c1])
      exact same a b c
  · intro c1 c2
    obtain ⟨a, b, c⟩ := e1 t.data_.n_cols (by rw [hraw]; simp [c1, c2])
    have hne1 : t1.empty = false :=
      (Cube.empty_eq_false_iff _).2 ⟨by rw [a]; exact pK, by rw [b]; exact Nat.one_pos,
        by rw [c]; exact Nat.one_pos⟩
    refine ⟨by rw [Tensor.shapes_eq t1 hne1, a, b, c], ?_⟩
    intro j hj
    refine ⟨_, Tensor.at_eq t 0 0 j pC pR hj, ?_⟩
    rw [Tensor.at_eq t1 0 j 0 (by rw [c]; exact Nat.one_pos) (by rw [a]; exact hj)
      (by rw [b]; exact Nat.one_pos), hmem _ (by rw [c1, c2]; simpa using hj), c2]
    simp

/-- C19 amended, at the fresh `Tensor(1, 1, 5)`. -/
theorem C19_ReRawshape_raw_shapes_amended_witness :
    ∃ t1, tensor_1x1x5.ReRawshape tensor_1x1x5.raw_shapes = some t1 ∧
      t1.raw_shapes = tensor_1x1x5.raw_shapes ∧
      (∀ i, i < 1 * 1 * 5 → ∃ v, tensor_1x1x5.index i = some v ∧ t1.index i = some v) ∧
      (¬ (1 = 1 ∧ 1 = 1 ∧ 5 ≠ 1) →
        t1.shapes = tensor_1x1x5.shapes ∧ ∀ c r k, t1.at_ c r k = tensor_1x1x5.at_ c r k) ∧
      (1 = 1 → 1 = 1 →
        t1.shapes = some [1, 5, 1] ∧
        ∀ j, j < 5 → ∃ v, tensor_1x1x5.at_ 0 0 j = some v ∧ t1.at_ 0 j 0 = some v) :=
  C19_ReRawshape_raw_shapes_amended tensor_1x1x5 1 1 5 (by decide) (by decide) (by decide)
    (by decide)

/-- C20 fails on the code: with a null input handle the assertion
`CHECK(input == nullptr || !input->empty())` passes, and the handle is dereferenced right
after (by `input->channels()` when the output slot is null or empty, by `input->shapes()`
otherwise), whatever `outputs[0]` holds. -/
theorem C20_Forward_null_input_dereferenced [DivisionRing α] (exp : α → α)
    (output : Option (Tensor α)) :
    SiLULayer.Forward exp [none] [output] = .error Abort.null_dereference := by
  rcases SiLULayer.Forward_spec exp [none] [output] (by simp) rfl with
    ⟨outs1, _, _, hdone⟩ | ⟨i, e, hi, hie, hf, _⟩
  · obtain ⟨out, hok, _⟩ := hdone 0 (by simp)
    have h0 : SiLULayer.item exp none output = .ok out := hok
    rw [SiLULayer.item_null] at h0
    exact absurd h0 (by simp)
  · have hi0 : i = 0 := by simpa using hi
    subst hi0
    have h0 : SiLULayer.item exp none output = .error e := hie
    rw [SiLULayer.item_null] at h0
    injection h0 with h0
    rw [hf, ← h0]

end kuiper_infer
